import Mathlib

set_option maxRecDepth 8000

/-!
Verification development for the multicode visual-programming core
(`visprog::core` and `visprog::generators`).  Definitions are shallow
embeddings of the C++ sources: `Port.cpp`, `Node.cpp`, `Graph.cpp`,
`NodeFactory.cpp`, `GraphSerializer.cpp`, `CppCodeGenerator.cpp`.
Identifiers are `std::uint64_t` handles; they are modelled as `Nat`
(they are only generated by small increments from 1, compared and
hashed, so wrap-around is unreachable in every state considered here).
-/

namespace VisProg

/-! ## Basic enumerations (Types.hpp) -/

/-- `visprog::core::ConnectionType`. -/
inductive ConnectionType where
  | Execution
  | Data
deriving DecidableEq, Repr

/-- `visprog::core::PortDirection`. -/
inductive PortDirection where
  | Input
  | Output
  | InOut
deriving DecidableEq, Repr

/-- `visprog::core::DataType`. -/
inductive DataType where
  | Void
  | Bool
  | Int8
  | Int16
  | Int32
  | Int64
  | UInt8
  | UInt16
  | UInt32
  | UInt64
  | Float
  | Double
  | Char
  | String
  | StringView
  | Pointer
  | Reference
  | Array
  | Vector
  | Map
  | Set
  | Struct
  | Class
  | Enum
  | Auto
  | Template
  | Execution
  | Any
deriving DecidableEq, Repr

/-- `visprog::core::Error`: message plus stable numeric code. -/
structure Error where
  message : String
  code : Int
deriving DecidableEq, Repr

/-- `visprog::core::Result<T>`: either a value or an `Error`. -/
inductive Result (α : Type) where
  | ok (value : α)
  | error (e : Error)
deriving DecidableEq, Repr

def Result.isOk {α : Type} : Result α → Bool
  | .ok _ => true
  | .error _ => false

def Result.errCode {α : Type} : Result α → Int
  | .ok _ => 0
  | .error e => e.code

/-! ## Character helpers (Port.cpp anonymous namespace)

`trim` uses the character set `" \t\n\r\f\v"`; `std::isspace` in the C
locale accepts exactly the same set, and `std::tolower` only maps ASCII
`A`–`Z` down.  All inputs of interest are ASCII. -/

def whitespaceChar (c : Char) : Bool :=
  c = ' ' || c = '\t' || c = '\n' || c = '\r' || c = '\x0c' || c = '\x0b'

/-- `trim`: drop leading and trailing whitespace. -/
def trimL (s : List Char) : List Char :=
  ((s.dropWhile whitespaceChar).reverse.dropWhile whitespaceChar).reverse

/-- `to_lower_ascii` on one character. -/
def toLowerAscii (c : Char) : Char :=
  if 65 ≤ c.toNat ∧ c.toNat ≤ 90 then Char.ofNat (c.toNat + 32) else c

/-- `is_identifier_char`: alphanumeric, `_` or `.`. -/
def isIdentifierChar (c : Char) : Bool :=
  (48 ≤ c.toNat && c.toNat ≤ 57) || (65 ≤ c.toNat && c.toNat ≤ 90) ||
    (97 ≤ c.toNat && c.toNat ≤ 122) || c = '_' || c = '.'

/-- `is_generic_type_name`: empty, `*`, `void`, `auto`, `any` act as wildcards. -/
def isGenericTypeName (name : List Char) : Bool :=
  name.isEmpty || name = ['*'] || name = ['v', 'o', 'i', 'd'] ||
    name = ['a', 'u', 't', 'o'] || name = ['a', 'n', 'y']

/-! ## Type-name tokenizer (Port.cpp `tokenize`) -/

inductive TokenKind where
  | identifier
  | symbol
deriving DecidableEq, Repr

structure Token where
  value : List Char
  kind : TokenKind
deriving DecidableEq, Repr

/-- The symbol characters recognised by the tokenizer switch. -/
def isSymbolChar (c : Char) : Bool :=
  c = '<' || c = '>' || c = ',' || c = '=' || c = '(' || c = ')' ||
    c = '[' || c = ']' || c = '*'

/-- `flush_identifier`: emit the accumulated identifier, lower-cased. -/
def flushIdentifier (current : List Char) (tokens : List Token) : List Token :=
  if current.isEmpty then tokens
  else tokens ++ [⟨current.map toLowerAscii, .identifier⟩]

/-- Main loop of `tokenize`; `current` is the pending identifier run.
The two-character `::` is folded into the current identifier. -/
def tokenizeGo : List Char → List Char → List Token → List Token
  | [], current, tokens => flushIdentifier current tokens
  | ':' :: ':' :: rest, current, tokens =>
      tokenizeGo rest (current ++ [':', ':']) tokens
  | c :: rest, current, tokens =>
      if whitespaceChar c then
        tokenizeGo rest [] (flushIdentifier current tokens)
      else if isIdentifierChar c then
        tokenizeGo rest (current ++ [c]) tokens
      else
        let tokens1 := flushIdentifier current tokens
        if isSymbolChar c then tokenizeGo rest [] (tokens1 ++ [⟨[c], .symbol⟩])
        else tokenizeGo rest [] tokens1

def tokenize (s : List Char) : List Token := tokenizeGo s [] []

/-! ## Type expression tree and recursive-descent parse
(`TypeExpression`, `TypeSegment`, `TypeNameParser` in Port.cpp).
A segment is a `(key, value)` pair; positional segments have an empty
key.  The parser's `value` pointer is never null, so segments carry the
expression directly. -/

mutual

inductive TypeExpr where
  | mk (head : List Char) (args : SegList)

/-- A segment list: `(key, value)` pairs, empty key = positional. -/
inductive SegList where
  | nil
  | cons (key : List Char) (e : TypeExpr) (rest : SegList)

end

def TypeExpr.head : TypeExpr → List Char
  | .mk h _ => h

def TypeExpr.args : TypeExpr → SegList
  | .mk _ a => a

def SegList.isNil : SegList → Bool
  | .nil => true
  | .cons _ _ _ => false

def isSymTok (t : Token) (v : List Char) : Bool :=
  t.kind = .symbol && t.value = v

/- The parse functions walk the token list front-to-back (the C++
version keeps an index into a vector; consuming from the front is the
same traversal).  `fuel` bounds the total chain of calls and loop
iterations; every iteration of `parse_segments` consumes at least one
token, so `parseFuel` below is always sufficient. -/
mutual

/-- `TypeNameParser::parse_segments(closing_symbol)`; returns the parsed
segments and the unconsumed tokens. -/
def parseSegs (fuel : Nat) (closing : List Char) (ts : List Token) :
    SegList × List Token :=
  match fuel with
  | 0 => (.nil, ts)
  | fuel + 1 =>
    match ts with
    | [] => (.nil, ts)
    | t :: rest =>
      if !closing.isEmpty && isSymTok t closing then (.nil, rest)
      else
        let (seg, ts1) := parseSeg fuel ts
        if ts1.length = ts.length then
          -- the segment consumed nothing: skip one token and continue
          parseSegs fuel closing rest
        else
          match ts1 with
          | [] => (.cons seg.1 seg.2 .nil, [])
          | t1 :: ts1rest =>
            if isSymTok t1 [','] then
              let (segs, ts2) := parseSegs fuel closing ts1rest
              (.cons seg.1 seg.2 segs, ts2)
            else if !closing.isEmpty && isSymTok t1 closing then
              (.cons seg.1 seg.2 .nil, ts1rest)
            else
              let (segs, ts2) := parseSegs fuel closing ts1
              (.cons seg.1 seg.2 segs, ts2)

/-- `TypeNameParser::parse_segment`. -/
def parseSeg (fuel : Nat) (ts : List Token) : (List Char × TypeExpr) × List Token :=
  match fuel with
  | 0 => (([], .mk [] .nil), ts)
  | fuel + 1 =>
    match ts with
    | t0 :: t1 :: rest =>
      if t0.kind = .identifier && isSymTok t1 ['='] then
        let (e, ts1) := parseExpr fuel rest
        ((t0.value, e), ts1)
      else
        let (e, ts1) := parseExpr fuel ts
        (([], e), ts1)
    | _ =>
      let (e, ts1) := parseExpr fuel ts
      (([], e), ts1)

/-- `TypeNameParser::parse_expression`. -/
def parseExpr (fuel : Nat) (ts : List Token) : TypeExpr × List Token :=
  match fuel with
  | 0 => (.mk [] .nil, ts)
  | fuel + 1 =>
    let headRest : List Char × List Token :=
      match ts with
      | t :: rest => if t.kind = .identifier then (t.value, rest) else ([], ts)
      | [] => ([], ts)
    match headRest.2 with
    | t :: rest =>
      if t.kind = .symbol &&
          (t.value = ['<'] || t.value = ['('] || t.value = ['[']) then
        let closing := if t.value = ['<'] then ['>']
                       else if t.value = ['('] then [')'] else [']']
        let (args, ts2) := parseSegs fuel closing rest
        (.mk headRest.1 args, ts2)
      else (.mk headRest.1 .nil, headRest.2)
    | [] => (.mk headRest.1 .nil, headRest.2)

end

/-- Ample fuel for the parse of a given token list. -/
def parseFuel (ts : List Token) : Nat := 3 * ts.length + 8

/-- `TypeNameParser::parse()`. -/
def parseTop (ts : List Token) : SegList :=
  (parseSegs (parseFuel ts) [] ts).1

/-! ## Canonical serialization (`serialize_expression`, `serialize_segments`) -/

/-- `std::string operator<`: lexicographic comparison by character code. -/
def lexLt : List Char → List Char → Bool
  | [], [] => false
  | [], _ :: _ => true
  | _ :: _, [] => false
  | a :: as, b :: bs =>
      if a.toNat < b.toNat then true
      else if b.toNat < a.toNat then false
      else lexLt as bs

/-- Insert into a key-sorted list, after existing entries with keys that
are not greater (a stable placement, refining the unspecified
equal-key order of `std::sort`). -/
def insertByKey (p : List Char × List Char) :
    List (List Char × List Char) → List (List Char × List Char)
  | [] => [p]
  | q :: rest =>
      if lexLt p.1 q.1 then p :: q :: rest else q :: insertByKey p rest

/-- Sort the named arguments lexicographically by key
(`std::sort` with `lhs.first < rhs.first`). -/
def sortByKey : List (List Char × List Char) → List (List Char × List Char)
  | [] => []
  | p :: rest => insertByKey p (sortByKey rest)

/-- `append_value` fold of `serialize_segments`: join with `", "`, where
a value appended to a still-empty result takes no separator. -/
def joinParts (parts : List (List Char)) : List Char :=
  parts.foldl (fun result v =>
    if result.isEmpty then result ++ v else result ++ (',' :: ' ' :: v)) []

/-- The body of `serialize_segments` after its per-segment loop:
positional arguments keep their order, named arguments are sorted by
key and rendered `key=value`. -/
def serializeParts (pairs : List (List Char × List Char)) : List Char :=
  let positional := (pairs.filter (fun p => p.1.isEmpty)).map (fun p => p.2)
  let named := pairs.filter (fun p => !p.1.isEmpty)
  let namedSorted := sortByKey named
  joinParts (positional ++ namedSorted.map (fun p => p.1 ++ ('=' :: p.2)))

mutual

/-- `serialize_expression`. -/
def serializeExpression (e : TypeExpr) : List Char :=
  match e with
  | .mk head args =>
    if args.isNil then head
    else
      let sargs := serializeParts (serializeRun args)
      if head.isEmpty then '<' :: (sargs ++ ['>'])
      else head ++ ('<' :: (sargs ++ ['>']))

/-- The serialization loop over the segment list of `serialize_segments`. -/
def serializeRun (l : SegList) : List (List Char × List Char) :=
  match l with
  | .nil => []
  | .cons k e rest => (k, serializeExpression e) :: serializeRun rest

end

/-- `serialize_segments`. -/
def serializeSegments (segs : SegList) : List Char := serializeParts (serializeRun segs)

/-! ## `normalize_type_name` and `are_type_names_compatible` -/

def normalizeChars (s : List Char) : List Char :=
  let trimmed := trimL s
  if trimmed.isEmpty then []
  else
    let tokens := tokenize trimmed
    if tokens.isEmpty then trimmed.map toLowerAscii
    else
      let segments := parseTop tokens
      if segments.isNil then trimmed.map toLowerAscii
      else serializeSegments segments

def normalize_type_name (s : String) : String := String.mk (normalizeChars s.data)

def areTypeNamesCompatibleL (lhs rhs : List Char) : Bool :=
  let lt := trimL lhs
  let rt := trimL rhs
  if lt = rt then true
  else if isGenericTypeName lt || isGenericTypeName rt then true
  else normalizeChars lt = normalizeChars rt

def are_type_names_compatible (lhs rhs : String) : Bool :=
  areTypeNamesCompatibleL lhs.data rhs.data

/-! ## DataType predicates (Port.cpp anonymous namespace) -/

def requiresTypeName : DataType → Bool
  | .Pointer | .Reference | .Array | .Vector | .Map | .Set
  | .Struct | .Class | .Enum | .Template => true
  | _ => false

def allowsGenericTypeName : DataType → Bool
  | .Pointer | .Reference | .Template => true
  | _ => false

def isSignedIntegral : DataType → Bool
  | .Int8 | .Int16 | .Int32 | .Int64 => true
  | _ => false

def isUnsignedIntegral : DataType → Bool
  | .UInt8 | .UInt16 | .UInt32 | .UInt64 => true
  | _ => false

def isIntegral (t : DataType) : Bool :=
  isSignedIntegral t || isUnsignedIntegral t || t = .Bool || t = .Char

def isFloatingPoint (t : DataType) : Bool :=
  t = .Float || t = .Double

def isNumeric (t : DataType) : Bool :=
  isIntegral t || isFloatingPoint t

def isStringLike (t : DataType) : Bool :=
  t = .String || t = .StringView

def isPointerLike (t : DataType) : Bool :=
  t = .Pointer || t = .Reference

def isContainer : DataType → Bool
  | .Array | .Vector | .Map | .Set => true
  | _ => false

def isUserDefined (t : DataType) : Bool :=
  t = .Struct || t = .Class || t = .Enum

def isNumericWidening : DataType → DataType → Bool
  | .Int8, t => t = .Int16 || t = .Int32 || t = .Int64
  | .Int16, t => t = .Int32 || t = .Int64
  | .Int32, t => t = .Int64
  | .UInt8, t => t = .UInt16 || t = .UInt32 || t = .UInt64
  | .UInt16, t => t = .UInt32 || t = .UInt64
  | .UInt32, t => t = .UInt64
  | _, _ => false

def isIntegralToFloating (f t : DataType) : Bool :=
  if !isIntegral f then false else t = .Float || t = .Double

def isFloatPromotion (f t : DataType) : Bool :=
  f = .Float && t = .Double

def isPointerCompatible (fromType : DataType) (fromName : List Char)
    (toType : DataType) (toName : List Char) : Bool :=
  if !isPointerLike fromType || !isPointerLike toType then false
  else areTypeNamesCompatibleL fromName toName

def isContainerCompatible (fromType : DataType) (fromName : List Char)
    (toType : DataType) (toName : List Char) : Bool :=
  if !isContainer fromType || !isContainer toType then false
  else if fromType ≠ toType then false
  else areTypeNamesCompatibleL fromName toName

def isUserDefinedCompatible (fromType : DataType) (fromName : List Char)
    (toType : DataType) (toName : List Char) : Bool :=
  if !isUserDefined fromType || !isUserDefined toType then false
  else if fromType ≠ toType then false
  else areTypeNamesCompatibleL fromName toName

/-! ## Port (Port.hpp / Port.cpp) -/

structure Port where
  id : Nat
  direction : PortDirection
  data_type : DataType
  name : String
  type_name : String
deriving DecidableEq, Repr

def Port.isExecution (p : Port) : Bool := p.data_type = .Execution

def Port.isInput (p : Port) : Bool := p.direction = .Input

def Port.isOutput (p : Port) : Bool := p.direction = .Output

/-- `Port::can_connect_to`. -/
def Port.canConnectTo (a other : Port) : Bool :=
  if a.id = other.id then false
  else
    let directionOk :=
      (a.isOutput && other.isInput) || (a.isInput && other.isOutput) ||
        a.direction = .InOut || other.direction = .InOut
    if !directionOk then false
    else if a.isExecution || other.isExecution then
      a.isExecution = other.isExecution
    else if a.data_type = .Any || other.data_type = .Any then true
    else if a.data_type = .Auto || other.data_type = .Auto then true
    else if a.data_type = .Void || other.data_type = .Void then
      a.data_type = other.data_type
    else if a.data_type = other.data_type then
      if requiresTypeName a.data_type then
        areTypeNamesCompatibleL a.type_name.data other.type_name.data
      else true
    else if a.data_type = .Template || other.data_type = .Template then
      areTypeNamesCompatibleL a.type_name.data other.type_name.data
    else if isPointerCompatible a.data_type a.type_name.data other.data_type other.type_name.data then true
    else if isPointerCompatible other.data_type other.type_name.data a.data_type a.type_name.data then true
    else if isContainerCompatible a.data_type a.type_name.data other.data_type other.type_name.data then true
    else if isContainerCompatible other.data_type other.type_name.data a.data_type a.type_name.data then true
    else if isUserDefinedCompatible a.data_type a.type_name.data other.data_type other.type_name.data then true
    else if isUserDefinedCompatible other.data_type other.type_name.data a.data_type a.type_name.data then true
    else if isNumericWidening a.data_type other.data_type ||
        isIntegralToFloating a.data_type other.data_type ||
        isFloatPromotion a.data_type other.data_type then true
    else if isFloatingPoint a.data_type && isFloatingPoint other.data_type then true
    else if isStringLike a.data_type && isStringLike other.data_type then true
    else if isStringLike other.data_type then true
    else if other.data_type = .Bool && isNumeric a.data_type then true
    else false

/-! ## Association-list helpers

`std::unordered_map` is modelled as an association list with unique
keys; lookup finds the entry, `assocSet` models `operator[]` followed by
assignment (replace or create), `assocErase` models `erase(key)`. -/

def assocLookup {κ α : Type} [DecidableEq κ] : List (κ × α) → κ → Option α
  | [], _ => none
  | p :: rest, k => if p.1 = k then some p.2 else assocLookup rest k

def assocSet {κ α : Type} [DecidableEq κ] : List (κ × α) → κ → α → List (κ × α)
  | [], k, v => [(k, v)]
  | p :: rest, k, v => if p.1 = k then (k, v) :: rest else p :: assocSet rest k v

def assocErase {κ α : Type} [DecidableEq κ] : List (κ × α) → κ → List (κ × α)
  | [], _ => []
  | p :: rest, k => if p.1 = k then rest else p :: assocErase rest k

/-! ## Node properties

Modelled from the spec: node "properties" are a tagged union
`String | f64 | i64 | bool` (§3) with a typed getter that "fails
silently on kind mismatch"; the Node revision storing them is missing
from the snapshot (only its callers `NodeFactory.cpp` and
`CppCodeGenerator.cpp` are present).  The double alternative carries no
payload here: no claim exercises floating-point properties. -/
inductive PropertyValue where
  | str (s : String)
  | int (i : Int)
  | boolean (b : Bool)
  | dbl
deriving DecidableEq, Repr

/-! ## Node (Node.hpp / Node.cpp)

Modelled from the spec: `NodeType` in the shipped headers is an enum,
but `Graph.cpp`, `NodeFactory.cpp` and the generator use a newer
string-named kind (`type.name == NodeTypes::Start.name`) whose header is
missing from the snapshot; the kind is therefore carried as its name
string, compared by equality, exactly as every use site does. -/
structure Node where
  id : Nat
  nodeType : String
  name : String
  ports : List Port
  properties : List (String × PropertyValue)
deriving DecidableEq, Repr

/-- `Node::find_port`: first port with the given id. -/
def Node.findPort (n : Node) (id : Nat) : Option Port :=
  n.ports.find? (fun p => p.id = id)

def Node.getInputPorts (n : Node) : List Port :=
  n.ports.filter Port.isInput

def Node.getOutputPorts (n : Node) : List Port :=
  n.ports.filter Port.isOutput

def Node.getExecInputPorts (n : Node) : List Port :=
  n.ports.filter (fun p => p.isInput && p.isExecution)

def Node.getExecOutputPorts (n : Node) : List Port :=
  n.ports.filter (fun p => p.isOutput && p.isExecution)

/-- The `has_execution_flow_` flag, maintained as
`update_execution_flow_flag` / `append_port` compute it: some port is an
execution port. -/
def Node.hasExecutionFlow (n : Node) : Bool :=
  n.ports.any Port.isExecution

/-- Typed property getter (`get_property<std::string>`): `none` both
when the key is absent and when the stored kind mismatches. -/
def Node.getPropertyString (n : Node) (key : String) : Option String :=
  match assocLookup n.properties key with
  | some (.str s) => some s
  | _ => none

def Node.getPropertyInt (n : Node) (key : String) : Option Int :=
  match assocLookup n.properties key with
  | some (.int i) => some i
  | _ => none

def Node.getPropertyBool (n : Node) (key : String) : Option Bool :=
  match assocLookup n.properties key with
  | some (.boolean b) => some b
  | _ => none

def Node.setProperty (n : Node) (key : String) (v : PropertyValue) : Node :=
  { n with properties := assocSet n.properties key v }

/-! Registered node-kind names (`NodeTypes`).  Modelled from the spec
and from the use sites: the registry header is not in the snapshot; the
names are the ones compared against throughout `NodeFactory.cpp`,
`Graph.cpp` and `CppCodeGenerator.cpp`. -/
namespace NodeTypes

def Start : String := "Start"

def End : String := "End"

def PrintString : String := "PrintString"

def Branch : String := "Branch"

def Sequence : String := "Sequence"

def ForLoop : String := "ForLoop"

def StringLiteral : String := "StringLiteral"

def BoolLiteral : String := "BoolLiteral"

def IntLiteral : String := "IntLiteral"

def Add : String := "Add"

def GetVariable : String := "GetVariable"

def SetVariable : String := "SetVariable"

def PureFunction : String := "PureFunction"

end NodeTypes

/-- `Node::validate` (Node.cpp), with the type-specific switch keyed by
the kind names the string-typed revision uses. -/
def Node.validate (n : Node) : Result Unit :=
  if n.name.isEmpty then .error ⟨"Node name cannot be empty", 100⟩
  else if n.hasExecutionFlow && n.getExecInputPorts.isEmpty &&
      n.getExecOutputPorts.isEmpty then
    .error ⟨"Node marked as having execution flow but has no exec ports", 101⟩
  else if !(n.ports.map Port.id).Nodup then
    .error ⟨"Duplicate port IDs found", 102⟩
  else if n.nodeType = NodeTypes.Start then
    if !n.getExecInputPorts.isEmpty then
      .error ⟨"Start node should not have execution inputs", 103⟩
    else if n.getExecOutputPorts.isEmpty then
      .error ⟨"Start node must have at least one execution output", 104⟩
    else .ok ()
  else if n.nodeType = NodeTypes.End then
    if !n.getExecOutputPorts.isEmpty then
      .error ⟨"End node should not have execution outputs", 105⟩
    else if n.getExecInputPorts.isEmpty then
      .error ⟨"End node must have at least one execution input", 106⟩
    else .ok ()
  else if n.nodeType = NodeTypes.PureFunction then
    if n.hasExecutionFlow then
      .error ⟨"Pure function nodes cannot have execution flow", 107⟩
    else .ok ()
  else .ok ()

/-! ## Connection (Connection.hpp) -/

structure Connection where
  id : Nat
  from_node : Nat
  from_port : Nat
  to_node : Nat
  to_port : Nat
  type : ConnectionType
deriving DecidableEq, Repr

/-- Graph-scope variable (referenced by the generator's
`graph_.get_variables()`; the Graph revision storing them is missing
from the snapshot; modelled from the spec's "graph-scope variable
declarations"). -/
structure GraphVariable where
  name : String
  type : DataType
deriving DecidableEq, Repr

/-! ## Graph (Graph.hpp / Graph.cpp) -/

structure Graph where
  nodes : List Node
  nodeLookup : List Nat
  connections : List Connection
  connLookup : List (Nat × Nat)
  adjOut : List (Nat × List Nat)
  adjIn : List (Nat × List Nat)
  nextConnId : Nat
  gvars : List GraphVariable
deriving DecidableEq, Repr

/-- A freshly constructed `Graph()`. -/
def Graph.empty : Graph := ⟨[], [], [], [], [], [], 1, []⟩

def Graph.hasNode (g : Graph) (id : Nat) : Bool := g.nodeLookup.contains id

/-- `Graph::get_node`: the lookup map holds a pointer into `nodes_`;
in every well-formed state the two agree. -/
def Graph.getNode (g : Graph) (id : Nat) : Option Node :=
  if g.nodeLookup.contains id then g.nodes.find? (fun n => n.id = id) else none

def Graph.nodeCount (g : Graph) : Nat := g.nodes.length

def Graph.getConnection (g : Graph) (id : Nat) : Option Connection :=
  (assocLookup g.connLookup id).bind (fun idx => g.connections[idx]?)

def Graph.getConnectionsFrom (g : Graph) (node : Nat) : List Nat :=
  (assocLookup g.adjOut node).getD []

def Graph.getConnectionsTo (g : Graph) (node : Nat) : List Nat :=
  (assocLookup g.adjIn node).getD []

def Graph.hasConnection (g : Graph) (id : Nat) : Bool :=
  (assocLookup g.connLookup id).isSome

def Graph.connectionCount (g : Graph) : Nat := g.connections.length

/-- The connections incident to a node (either endpoint). -/
def Graph.incidentConnections (g : Graph) (n : Nat) : List Connection :=
  g.connections.filter (fun c => c.from_node = n || c.to_node = n)

/-- `Graph::add_node(std::unique_ptr<Node>)`; a null node never arises
in the model.  Returns the updated graph and the returned id
(`0` when the id already exists). -/
def Graph.addNode (g : Graph) (node : Node) : Graph × Nat :=
  if g.nodeLookup.contains node.id then (g, 0)
  else
    ({ g with
        nodeLookup := g.nodeLookup ++ [node.id],
        nodes := g.nodes ++ [node],
        adjOut := assocSet g.adjOut node.id [],
        adjIn := assocSet g.adjIn node.id [] }, node.id)

def Graph.validateNodeExists (g : Graph) (node : Nat) : Result Unit :=
  if !g.hasNode node then
    .error ⟨"Node " ++ toString node ++ " does not exist", 301⟩
  else .ok ()

def Graph.validatePortExists (g : Graph) (node port : Nat) : Result Unit :=
  match g.getNode node with
  | none => .error ⟨"Node " ++ toString node ++ " does not exist", 301⟩
  | some nodePtr =>
    match nodePtr.findPort port with
    | none =>
      .error ⟨"Port " ++ toString port ++ " does not exist on node " ++ toString node, 302⟩
    | some _ => .ok ()

def Result.andThen {α β : Type} (r : Result α) (f : α → Result β) : Result β :=
  match r with
  | .ok v => f v
  | .error e => .error e

/-- `Graph::validate_connection`.  The final two fallback arms are
unreachable: the preceding `validatePortExists` calls re-evaluate the
same pure lookups. -/
def Graph.validateConnection (g : Graph) (fromNode fromPort toNode toPort : Nat) :
    Result Unit :=
  (g.validateNodeExists fromNode).andThen fun _ =>
  (g.validateNodeExists toNode).andThen fun _ =>
  (g.validatePortExists fromNode fromPort).andThen fun _ =>
  (g.validatePortExists toNode toPort).andThen fun _ =>
  match g.getNode fromNode, g.getNode toNode with
  | some fn, some tn =>
    match fn.findPort fromPort, tn.findPort toPort with
    | some fp, some tp =>
      if !fp.canConnectTo tp then
        .error ⟨"Ports are not compatible: " ++ fn.name ++ " (" ++ fp.name ++
          ") -> " ++ tn.name ++ " (" ++ tp.name ++ ")", 300⟩
      else if fromNode = toNode then
        .error ⟨"Self-loops are not allowed", 304⟩
      else .ok ()
    | _, _ => .ok ()
  | _, _ => .ok ()

/-- `Graph::connect`. -/
def Graph.connect (g : Graph) (fromNode fromPort toNode toPort : Nat) :
    Graph × Result Nat :=
  match g.validateConnection fromNode fromPort toNode toPort with
  | .error e => (g, .error e)
  | .ok _ =>
    let fromPortPtr := (g.getNode fromNode).bind (fun n => n.findPort fromPort)
    let connType : ConnectionType :=
      match fromPortPtr with
      | some p => if p.isExecution then .Execution else .Data
      | none => .Data
    let connId := g.nextConnId
    let index := g.connections.length
    let conn : Connection := ⟨connId, fromNode, fromPort, toNode, toPort, connType⟩
    ({ g with
        connections := g.connections ++ [conn],
        connLookup := assocSet g.connLookup connId index,
        adjOut := assocSet g.adjOut fromNode
          (((assocLookup g.adjOut fromNode).getD []) ++ [connId]),
        adjIn := assocSet g.adjIn toNode
          (((assocLookup g.adjIn toNode).getD []) ++ [connId]),
        nextConnId := g.nextConnId + 1 }, .ok connId)

/-- `Graph::disconnect`: swap-and-pop removal.  The stored index is in
range in every well-formed state. -/
def Graph.disconnect (g : Graph) (id : Nat) : Graph × Result Unit :=
  match assocLookup g.connLookup id with
  | none => (g, .error ⟨"Connection not found", 200⟩)
  | some index =>
    let conn := g.connections.getD index ⟨0, 0, 0, 0, 0, .Data⟩
    let outList := ((assocLookup g.adjOut conn.from_node).getD []).filter (fun x => x ≠ id)
    let inList := ((assocLookup g.adjIn conn.to_node).getD []).filter (fun x => x ≠ id)
    let g1 : Graph := { g with
        adjOut := assocSet g.adjOut conn.from_node outList,
        adjIn := assocSet g.adjIn conn.to_node inList,
        connLookup := assocErase g.connLookup id }
    if index < g.connections.length - 1 then
      let back := (g.connections.getLast?).getD ⟨0, 0, 0, 0, 0, .Data⟩
      ({ g1 with
          connections := (g1.connections.set index back).dropLast,
          connLookup := assocSet g1.connLookup back.id index }, .ok ())
    else
      ({ g1 with connections := g1.connections.dropLast }, .ok ())

/-- Ascending insertion (`std::ranges::sort` on id values). -/
def insertNat (x : Nat) : List Nat → List Nat
  | [] => [x]
  | y :: rest => if x ≤ y then x :: y :: rest else y :: insertNat x rest

def sortNat : List Nat → List Nat
  | [] => []
  | x :: rest => insertNat x (sortNat rest)

/-- `std::ranges::unique` after sorting: drop adjacent duplicates. -/
def uniqueAdj : List Nat → List Nat
  | [] => []
  | [x] => [x]
  | x :: y :: rest => if x = y then uniqueAdj (y :: rest) else x :: uniqueAdj (y :: rest)

/-- `Graph::remove_node_connections`. -/
def Graph.removeNodeConnections (g : Graph) (node : Nat) : Graph :=
  let outgoing := g.getConnectionsFrom node
  let incoming := g.getConnectionsTo node
  let toRemove := uniqueAdj (sortNat (outgoing ++ incoming))
  toRemove.foldl (fun acc cid => (acc.disconnect cid).1) g

/-- `Graph::remove_node`. -/
def Graph.removeNode (g : Graph) (id : Nat) : Graph × Result Unit :=
  match g.validateNodeExists id with
  | .error e => (g, .error e)
  | .ok _ =>
    let g1 := g.removeNodeConnections id
    ({ g1 with
        nodeLookup := g1.nodeLookup.erase id,
        adjOut := assocErase g1.adjOut id,
        adjIn := assocErase g1.adjIn id,
        nodes := g1.nodes.eraseP (fun n => n.id = id) }, .ok ())

/-- `Graph::clear` (resets every container and the connection counter;
the graph-variable list lives in the newer revision and is untouched
here). -/
def Graph.clearAll (g : Graph) : Graph :=
  { g with nodes := [], nodeLookup := [], connections := [], connLookup := [],
           adjOut := [], adjIn := [], nextConnId := 1 }

/-- `Graph::seed_connection_counter`. -/
def Graph.seedConnectionCounter (g : Graph) (next : Nat) : Graph :=
  if g.nextConnId < next then { g with nextConnId := next } else g

def connTypeName : ConnectionType → String
  | .Execution => "Execution"
  | .Data => "Data"

/-- `Graph::append_connection` (bulk-load path). -/
def Graph.appendConnection (g : Graph) (c : Connection) : Graph × Result Unit :=
  if c.id = 0 then (g, .error ⟨"Connection ID must be non-zero", 305⟩)
  else if (assocLookup g.connLookup c.id).isSome then
    (g, .error ⟨"Connection " ++ toString c.id ++ " already exists", 306⟩)
  else
    match g.validateConnection c.from_node c.from_port c.to_node c.to_port with
    | .error e => (g, .error e)
    | .ok _ =>
      match (g.getNode c.from_node).bind (fun n => n.findPort c.from_port) with
      | none => (g, .error ⟨"Source port missing during connection append", 307⟩)
      | some fp =>
        let expected : ConnectionType := if fp.isExecution then .Execution else .Data
        if expected ≠ c.type then
          (g, .error ⟨"Connection " ++ toString c.id ++ " type mismatch: expected " ++
            connTypeName expected ++ " but got " ++ connTypeName c.type, 308⟩)
        else
          let index := g.connections.length
          let g1 : Graph := { g with
              connections := g.connections ++ [c],
              connLookup := assocSet g.connLookup c.id index,
              adjOut := assocSet g.adjOut c.from_node
                (((assocLookup g.adjOut c.from_node).getD []) ++ [c.id]),
              adjIn := assocSet g.adjIn c.to_node
                (((assocLookup g.adjIn c.to_node).getD []) ++ [c.id]) }
          (g1.seedConnectionCounter (c.id + 1), .ok ())

/-! ## Graph algorithms (Graph.cpp) -/

/-- `std::unordered_set::insert`: no-op when present. -/
def setInsert (l : List Nat) (x : Nat) : List Nat :=
  if l.contains x then l else l ++ [x]

structure DfsState where
  visited : List Nat
  inStack : List Nat
  result : List Nat
deriving DecidableEq, Repr

/- `Graph::topological_sort_dfs`.  The C++ recursion terminates because
every recursive call is on a freshly visited node; the model carries
fuel, consumed once per node entry, and `dfsFuel` below strictly
exceeds the number of distinct reachable ids, so the zero-fuel arm is
never taken by the top-level entry points.  The accumulator's first
component records that a cycle was found, after which the remaining
loop iterations are skipped (modelling the early `return`). -/

def topoDfsStep (g : Graph) (dfs : Nat → DfsState → Bool × DfsState)
    (acc : Bool × DfsState) (connId : Nat) : Bool × DfsState :=
  if acc.1 then acc
  else
    match g.getConnection connId with
    | none => acc
    | some conn =>
      if conn.type ≠ .Execution then acc
      else if acc.2.inStack.contains conn.to_node then (true, acc.2)
      else if !acc.2.visited.contains conn.to_node then dfs conn.to_node acc.2
      else acc

def topoDfs (g : Graph) : Nat → Nat → DfsState → Bool × DfsState
  | 0, _, s => (true, s)
  | fuel + 1, node, s =>
    let s1 : DfsState :=
      { s with visited := setInsert s.visited node, inStack := setInsert s.inStack node }
    match (g.getConnectionsFrom node).foldl (topoDfsStep g (topoDfs g fuel)) (false, s1) with
    | (true, s2) => (true, s2)
    | (false, s2) =>
      (false, { s2 with inStack := s2.inStack.erase node, result := s2.result ++ [node] })

/-- Fuel that strictly exceeds the number of distinct ids any DFS can
visit (roots come from `nodes`, successors from connection targets). -/
def Graph.dfsFuel (g : Graph) : Nat := g.nodes.length + g.connections.length + 1

/-- The node loop of `Graph::topological_sort` (early return on cycle). -/
def topoSortGo (g : Graph) : List Node → DfsState → Bool × DfsState
  | [], s => (false, s)
  | node :: rest, s =>
    if !s.visited.contains node.id then
      match topoDfs g g.dfsFuel node.id s with
      | (true, s2) => (true, s2)
      | (false, s2) => topoSortGo g rest s2
    else topoSortGo g rest s

def Graph.topologicalSort (g : Graph) : Result (List Nat) :=
  match topoSortGo g g.nodes ⟨[], [], []⟩ with
  | (true, _) => .error ⟨"Graph contains cycles - cannot perform topological sort", 400⟩
  | (false, s) => .ok s.result.reverse

/-- The node loop of `Graph::has_cycles` (a fresh dummy result vector
per node; visited and in-stack sets are shared). -/
def hasCyclesGo (g : Graph) : List Node → List Nat → List Nat → Bool
  | [], _, _ => false
  | node :: rest, visited, inStack =>
    if !visited.contains node.id then
      match topoDfs g g.dfsFuel node.id ⟨visited, inStack, []⟩ with
      | (true, _) => true
      | (false, s2) => hasCyclesGo g rest s2.visited s2.inStack
    else hasCyclesGo g rest visited inStack

def Graph.hasCycles (g : Graph) : Bool := hasCyclesGo g g.nodes [] []

/- `Graph::dfs_reachable` over all outgoing connections. -/

def dfsReachableStep (g : Graph) (dfs : Nat → List Nat → List Nat)
    (visited : List Nat) (connId : Nat) : List Nat :=
  match g.getConnection connId with
  | none => visited
  | some conn =>
    if !visited.contains conn.to_node then dfs conn.to_node visited
    else visited

def dfsReachable (g : Graph) : Nat → Nat → List Nat → List Nat
  | 0, _, visited => visited
  | fuel + 1, current, visited =>
    (g.getConnectionsFrom current).foldl (dfsReachableStep g (dfsReachable g fuel))
      (setInsert visited current)

def Graph.findReachableNodes (g : Graph) (start : Nat) : List Nat :=
  dfsReachable g g.dfsFuel start []

def Graph.hasPath (g : Graph) (fromN toN : Nat) : Bool :=
  if fromN = toN then true
  else (g.findReachableNodes fromN).contains toN

/-! ## Graph validation (Graph.cpp `validate`) -/

structure ValidationResult where
  is_valid : Bool
  errors : List Error
  warnings : List Error
deriving DecidableEq, Repr

def Graph.findStartNode (g : Graph) : Option Node :=
  g.nodes.find? (fun n => n.nodeType = NodeTypes.Start)

def Graph.findEndNodes (g : Graph) : List Node :=
  g.nodes.filter (fun n => n.nodeType = NodeTypes.End)

/- `Graph::validate` is a single C++ function; each sequential check is
modelled as a named stage applied in order. -/

/-- Check 2: warn when no End node exists. -/
def validateStage2 (g : Graph) (r1 : ValidationResult) : ValidationResult :=
  if g.findEndNodes.isEmpty then
    { r1 with warnings := r1.warnings ++ [⟨"Graph should have at least one End node", 501⟩] }
  else r1

/-- Check 3: every node validates itself. -/
def validateStage3 (g : Graph) (r : ValidationResult) : ValidationResult :=
  g.nodes.foldl (fun acc node =>
    match node.validate with
    | .error e => { acc with errors := acc.errors ++ [e], is_valid := false }
    | .ok _ => acc) r

/-- Check 4: no cycles in execution flow. -/
def validateStage4 (g : Graph) (r3 : ValidationResult) : ValidationResult :=
  if g.hasCycles then
    { r3 with errors := r3.errors ++ [⟨"Graph contains cycles in execution flow", 400⟩],
              is_valid := false }
  else r3

/-- Check 5: a multi-node graph must have connections. -/
def validateStage5 (g : Graph) (start : Option Node) (r4 : ValidationResult) :
    ValidationResult :=
  if start.isSome && g.connections.isEmpty && decide (g.nodes.length > 1) then
    { r4 with errors := r4.errors ++ [⟨"Graph has no execution flow connections", 501⟩],
              is_valid := false }
  else r4

/-- Check 6: every non-Start node is reachable from Start. -/
def validateStage6 (g : Graph) (start : Option Node) (r5 : ValidationResult) :
    ValidationResult :=
  match start with
  | some st =>
    if !g.connections.isEmpty then
      let reachable := g.findReachableNodes st.id
      g.nodes.foldl (fun acc node =>
        if !reachable.contains node.id && node.nodeType ≠ NodeTypes.Start then
          let e : Error :=
            ⟨"Node \x27" ++ node.name ++ "\x27 is not reachable from Start", 503⟩
          { acc with errors := acc.errors ++ [e], is_valid := false }
        else acc) r5
    else r5
  | none => r5

/-- Check 7: every stored connection still validates. -/
def validateStage7 (g : Graph) (r6 : ValidationResult) : ValidationResult :=
  g.connections.foldl (fun acc conn =>
    match g.validateConnection conn.from_node conn.from_port conn.to_node conn.to_port with
    | .error e => { acc with errors := acc.errors ++ [e], is_valid := false }
    | .ok _ => acc) r6

def Graph.validate (g : Graph) : ValidationResult :=
  let r0 : ValidationResult := ⟨true, [], []⟩
  let start := g.findStartNode
  let r1 := if start.isNone then
      { r0 with errors := r0.errors ++ [⟨"Graph must have exactly one Start node", 500⟩],
                is_valid := false }
    else r0
  validateStage7 g (validateStage6 g start (validateStage5 g start
    (validateStage4 g (validateStage3 g (validateStage2 g r1)))))

/-! ## NodeFactory (NodeFactory.cpp)

Port ids come from the process-wide monotonic counter; a factory run is
modelled by the first fresh port id, consecutive ids following, exactly
as consecutive `generate_port_id()` calls produce them. -/

def mkInPort (id : Nat) (t : DataType) (name : String) : Port :=
  ⟨id, .Input, t, name, ""⟩

def mkOutPort (id : Nat) (t : DataType) (name : String) : Port :=
  ⟨id, .Output, t, name, ""⟩

/-- `NodeFactory::configure_ports`: the default port layout and
properties of each registered kind. -/
def configurePorts (nodeType : String) (p : Nat) :
    List Port × List (String × PropertyValue) :=
  if nodeType = NodeTypes.Start then
    ([mkOutPort p .Execution "start"], [])
  else if nodeType = NodeTypes.End then
    ([mkInPort p .Execution "end"], [])
  else if nodeType = NodeTypes.PrintString then
    ([mkInPort p .Execution "in_exec", mkOutPort (p + 1) .Execution "out_exec",
      mkInPort (p + 2) .StringView "value"],
     [("value", .str "Hello, World!")])
  else if nodeType = NodeTypes.Branch then
    ([mkInPort p .Execution "in_exec", mkInPort (p + 1) .Bool "condition",
      mkOutPort (p + 2) .Execution "true_exec", mkOutPort (p + 3) .Execution "false_exec"], [])
  else if nodeType = NodeTypes.Sequence then
    ([mkInPort p .Execution "in_exec", mkOutPort (p + 1) .Execution "Then 0",
      mkOutPort (p + 2) .Execution "Then 1"], [])
  else if nodeType = NodeTypes.ForLoop then
    ([mkInPort p .Execution "in_exec", mkInPort (p + 1) .Int32 "first_index",
      mkInPort (p + 2) .Int32 "last_index", mkOutPort (p + 3) .Execution "loop_body",
      mkOutPort (p + 4) .Int32 "index", mkOutPort (p + 5) .Execution "completed"], [])
  else if nodeType = NodeTypes.StringLiteral then
    ([mkOutPort p .String "output"], [("value", .str "default string")])
  else if nodeType = NodeTypes.BoolLiteral then
    ([mkOutPort p .Bool "output"], [("value", .boolean false)])
  else if nodeType = NodeTypes.IntLiteral then
    ([mkOutPort p .Int32 "output"], [("value", .int 0)])
  else if nodeType = NodeTypes.Add then
    ([mkInPort p .Int32 "a", mkInPort (p + 1) .Int32 "b",
      mkOutPort (p + 2) .Int32 "result"], [])
  else if nodeType = NodeTypes.GetVariable then
    ([mkOutPort p .Any "value"], [("variable_name", .str "")])
  else if nodeType = NodeTypes.SetVariable then
    ([mkInPort (p + 1) .Execution "in_exec", mkInPort (p + 2) .Any "value",
      mkOutPort (p + 3) .Execution "out_exec"], [("variable_name", .str "")])
  else ([], [])

/-- `NodeFactory::create_with_id`. -/
def NodeFactory.createWithId (nodeId : Nat) (nodeType : String)
    (instanceName : String) (firstPortId : Nat) : Node :=
  let (ports, props) := configurePorts nodeType firstPortId
  ⟨nodeId, nodeType, instanceName, ports, props⟩

/-! ## C++ code generator (CppCodeGenerator.cpp, `GraphCodeBuilder`) -/

/-- `find_port_by_name`. -/
def findPortByName (n : Node) (name : String) : Option Port :=
  n.ports.find? (fun p => p.name = name)

/-- `find_node_with_port`. -/
def findNodeWithPort (g : Graph) (portId : Nat) : Option Node :=
  g.nodes.find? (fun n => (n.findPort portId).isSome)

/-- `get_connected_node`: first connection incident to the port decides. -/
def getConnectedNode (g : Graph) (port : Port) : Option Node :=
  match g.connections.find? (fun c =>
      (port.direction = .Input && c.to_port = port.id) ||
      (port.direction = .Output && c.from_port = port.id)) with
  | none => none
  | some c =>
    if port.direction = .Input then g.getNode c.from_node else g.getNode c.to_node

/-- `get_connected_port`. -/
def getConnectedPort (g : Graph) (port : Port) : Option Port :=
  match g.connections.find? (fun c =>
      (port.direction = .Input && c.to_port = port.id) ||
      (port.direction = .Output && c.from_port = port.id)) with
  | none => none
  | some c =>
    if port.direction = .Input then
      (g.getNode c.from_node).bind (fun n => n.findPort c.from_port)
    else
      (g.getNode c.to_node).bind (fun n => n.findPort c.to_port)

/-- `to_cpp_type`. -/
def toCppType : DataType → String
  | .Int32 => "int"
  | .String => "std::string"
  | .Bool => "bool"
  | _ => "auto"

/-- `GraphCodeBuilder::get_default_value`. -/
def getDefaultValue (t : DataType) : String :=
  if t = .String then "std::string(\"\")"
  else if t = .Bool then "false"
  else if t = .Int32 then "0"
  else if t = .Any then "\"(unconnected)\""
  else "/* unknown type */"

/-- `GraphCodeBuilder::get_next_exec_node`. -/
def getNextExecNode (g : Graph) (node : Node) : Option Node :=
  match node.getExecOutputPorts with
  | [] => none
  | p :: _ => getConnectedNode g p

def indentStr (indent : Nat) : String := String.mk (List.replicate (indent * 4) ' ')

/-- Stable sort of the Sequence node's execution outputs by port name
(`std::sort` with `a->get_name() < b->get_name()`). -/
def insertPortByName (p : Port) : List Port → List Port
  | [] => [p]
  | q :: rest =>
      if lexLt p.name.data q.name.data then p :: q :: rest else q :: insertPortByName p rest

def sortPortsByName : List Port → List Port
  | [] => []
  | p :: rest => insertPortByName p (sortPortsByName rest)

/-- Mutable builder state: hoisted preamble text, statement body, and
the per-source-port expression memo (`generated_expressions_`). -/
structure GenState where
  preamble : String
  mainBody : String
  exprCache : List (Nat × String)
deriving DecidableEq, Repr

/- `generate_exec_flow` and `generate_data_expression`.  `depth` models
the member `recursion_depth_` (incremented on entry, so each nested
statement call sees one more); `fuel` is only the totality device for
the unguarded data-expression recursion and is chosen far beyond any
state the claims evaluate. -/
mutual

def generateExecFlow (g : Graph) (fuel : Nat) (node : Option Node) (indent : Nat)
    (depth : Nat) (st : GenState) : GenState :=
  match fuel with
  | 0 => st
  | fuel + 1 =>
    match node with
    | none => st
    | some current =>
      if depth > 200 then
        { st with mainBody :=
            st.mainBody ++ indentStr indent ++ "/* Recursion limit reached */\n" }
      else
        let ind := indentStr indent
        if current.nodeType = NodeTypes.End then
          { st with mainBody := st.mainBody ++ ind ++ "return 0;\n" }
        else if current.nodeType = NodeTypes.PrintString then
          let st1 :=
            match findPortByName current "value" with
            | some msgPort =>
              let (valueExpr, st1) := generateDataExpression g fuel msgPort st
              { st1 with mainBody :=
                  st1.mainBody ++ ind ++ "std::cout << " ++ valueExpr ++ " << std::endl;\n" }
            | none => st
          generateExecFlow g fuel (getNextExecNode g current) indent (depth + 1) st1
        else if current.nodeType = NodeTypes.SetVariable then
          let varName := (current.getPropertyString "variable_name").getD ""
          let st1 :=
            match findPortByName current "value" with
            | some valuePort =>
              if varName.isEmpty then st
              else
                let (valueExpr, st1) := generateDataExpression g fuel valuePort st
                { st1 with mainBody :=
                    st1.mainBody ++ ind ++ varName ++ " = " ++ valueExpr ++ ";\n" }
            | none => st
          generateExecFlow g fuel (getNextExecNode g current) indent (depth + 1) st1
        else if current.nodeType = NodeTypes.Sequence then
          let execPorts := sortPortsByName current.getExecOutputPorts
          execPorts.foldl (fun acc port =>
            generateExecFlow g fuel (getConnectedNode g port) indent (depth + 1) acc) st
        else if current.nodeType = NodeTypes.Branch then
          let (conditionExpr, st1) :=
            match findPortByName current "condition" with
            | some condPort => generateDataExpression g fuel condPort st
            | none => ("false", st)
          let st2 := { st1 with mainBody :=
              st1.mainBody ++ ind ++ "if (" ++ conditionExpr ++ ") \x7b\n" }
          let st3 :=
            match findPortByName current "true_exec" with
            | some trueExec =>
              generateExecFlow g fuel (getConnectedNode g trueExec) (indent + 1) (depth + 1) st2
            | none => st2
          let st4 := { st3 with mainBody := st3.mainBody ++ ind ++ "\x7d else \x7b\n" }
          let st5 :=
            match findPortByName current "false_exec" with
            | some falseExec =>
              generateExecFlow g fuel (getConnectedNode g falseExec) (indent + 1) (depth + 1) st4
            | none => st4
          { st5 with mainBody := st5.mainBody ++ ind ++ "\x7d\n" }
        else if current.nodeType = NodeTypes.ForLoop then
          let (firstIdxExpr, stA) :=
            match findPortByName current "first_index" with
            | some p => generateDataExpression g fuel p st
            | none => ("0", st)
          let (lastIdxExpr, stB) :=
            match findPortByName current "last_index" with
            | some p => generateDataExpression g fuel p stA
            | none => ("10", stA)
          let loopVar := "i_" ++ toString current.id
          let stC :=
            match findPortByName current "index" with
            | some indexOut =>
              { stB with exprCache := assocSet stB.exprCache indexOut.id loopVar }
            | none => stB
          let stD := { stC with mainBody :=
              stC.mainBody ++ ind ++ "for (int " ++ loopVar ++ " = " ++ firstIdxExpr ++
                "; " ++ loopVar ++ " < " ++ lastIdxExpr ++ "; ++" ++ loopVar ++ ") \x7b\n" }
          let stE :=
            match findPortByName current "loop_body" with
            | some loopBody =>
              generateExecFlow g fuel (getConnectedNode g loopBody) (indent + 1) (depth + 1) stD
            | none => stD
          let stF := { stE with mainBody := stE.mainBody ++ ind ++ "\x7d\n" }
          match findPortByName current "completed" with
          | some completed =>
            generateExecFlow g fuel (getConnectedNode g completed) indent (depth + 1) stF
          | none => stF
        else
          generateExecFlow g fuel (getNextExecNode g current) indent (depth + 1) st

def generateDataExpression (g : Graph) (fuel : Nat) (port : Port) (st : GenState) :
    String × GenState :=
  match fuel with
  | 0 => ("/* recursion limit */", st)
  | fuel + 1 =>
    if port.direction ≠ .Input then ("/* invalid port direction */", st)
    else
      match getConnectedPort g port with
      | none => (getDefaultValue port.data_type, st)
      | some sourcePort =>
        match findNodeWithPort g sourcePort.id with
        | none => ("/* source node not found */", st)
        | some sourceNode =>
          let cacheKey := sourcePort.id
          match assocLookup st.exprCache cacheKey with
          | some cached => (cached, st)
          | none =>
            let (expression, st1) :=
              if sourceNode.nodeType = NodeTypes.GetVariable then
                ((sourceNode.getPropertyString "variable_name").getD "/* unknown_var */", st)
              else if sourceNode.nodeType = NodeTypes.StringLiteral then
                let value := (sourceNode.getPropertyString "value").getD ""
                let varName := "var_" ++ toString sourceNode.id
                ((varName),
                  { st with preamble := st.preamble ++ "    const std::string " ++ varName ++
                      " = \"" ++ value ++ "\";\n" })
              else if sourceNode.nodeType = NodeTypes.BoolLiteral then
                let value := (sourceNode.getPropertyBool "value").getD false
                let varName := "var_" ++ toString sourceNode.id
                ((varName),
                  { st with preamble := st.preamble ++ "    const bool " ++ varName ++
                      " = " ++ (if value then "true" else "false") ++ ";\n" })
              else if sourceNode.nodeType = NodeTypes.IntLiteral then
                let value := (sourceNode.getPropertyInt "value").getD 0
                let varName := "var_" ++ toString sourceNode.id
                ((varName),
                  { st with preamble := st.preamble ++ "    const int " ++ varName ++
                      " = " ++ toString value ++ ";\n" })
              else if sourceNode.nodeType = NodeTypes.Add then
                match findPortByName sourceNode "a", findPortByName sourceNode "b" with
                | some portA, some portB =>
                  let (exprA, stA) := generateDataExpression g fuel portA st
                  let (exprB, stB) := generateDataExpression g fuel portB stA
                  ("(" ++ exprA ++ " + " ++ exprB ++ ")", stB)
                | _, _ => (getDefaultValue .Int32, st)
              else
                match g.findStartNode with
                | some startNode =>
                  if sourceNode.id = startNode.id then
                    (getDefaultValue sourcePort.data_type, st)
                  else (getDefaultValue port.data_type, st)
                | none => (getDefaultValue port.data_type, st)
            (expression, { st1 with exprCache := assocSet st1.exprCache cacheKey expression })

end

/-- `std::string::find(needle) != npos`: substring containment. -/
def containsSub (hay needle : List Char) : Bool :=
  hay.tails.any (fun t => needle.isPrefixOf t)

/-- `GraphCodeBuilder::assemble_final_code`. -/
def assembleFinalCode (st : GenState) : String :=
  let header := "// Generated by MultiCode C++ Code Generator\n" ++
    "#include <iostream>\n" ++ "#include <string>\n\n" ++ "int main() \x7b\n"
  let withBody := header ++ st.preamble ++ st.mainBody
  let closing :=
    if containsSub st.mainBody.data "return 0;".data then "\x7d\n"
    else "    return 0;\n\x7d\n"
  withBody ++ closing

/-- Generation fuel; far beyond anything the evaluated scenarios need. -/
def genFuel : Nat := 10000

/-- `CppCodeGenerator::generate` / `GraphCodeBuilder::build`. -/
def CppCodeGenerator.generate (g : Graph) : Result String :=
  let pre0 := g.gvars.foldl (fun acc v =>
      acc ++ "    " ++ toCppType v.type ++ " " ++ v.name ++ ";\n") ""
  let pre1 := if !g.gvars.isEmpty then pre0 ++ "\n" else pre0
  match g.findStartNode with
  | none => .error ⟨"Graph must have a Start node.", 0⟩
  | some startNode =>
    let st0 : GenState := ⟨pre1, "", []⟩
    let st1 :=
      match startNode.getExecOutputPorts with
      | [] => st0
      | p :: _ => generateExecFlow g genFuel (getConnectedNode g p) 1 0 st0
    .ok (assembleFinalCode st1)

/-! ## Serializer connections loop (GraphSerializer.cpp `from_json`) -/

/-- One well-shaped entry of a document's `connections` array: the
fields the deserialization loop reads after the shape checks
(`require_uint64` / `require_string`) have accepted them. -/
structure ConnRecord where
  id : Nat
  type : String
  fromNodeId : Nat
  fromPortId : Nat
  toNodeId : Nat
  toPortId : Nat
deriving DecidableEq, Repr

/-- `parse_connection_type`. -/
def parseConnectionType (s : String) : Option ConnectionType :=
  if s = "Execution" then some .Execution
  else if s = "Data" then some .Data
  else none

/-- The `connections` loop of `GraphSerializer::from_json` (lines
556–638): validates the enum, builds the `Connection`, and returns any
`Graph::append_connection` error unchanged; on success seeds the
connection counter past the maximum restored id. -/
def deserializeConnectionsGo (g : Graph) (records : List ConnRecord) (index : Nat)
    (maxId : Nat) : Result Graph :=
  match records with
  | [] => .ok (g.seedConnectionCounter (maxId + 1))
  | r :: rest =>
    match parseConnectionType r.type with
    | none =>
      .error ⟨"connections[" ++ toString index ++ "]: неизвестный тип \x27" ++
        r.type ++ "\x27", 602⟩
    | some ct =>
      let conn : Connection :=
        ⟨r.id, r.fromNodeId, r.fromPortId, r.toNodeId, r.toPortId, ct⟩
      match g.appendConnection conn with
      | (_, .error e) => .error e
      | (g1, .ok _) => deserializeConnectionsGo g1 rest (index + 1) (max maxId r.id)

def deserializeConnections (g : Graph) (records : List ConnRecord) : Result Graph :=
  deserializeConnectionsGo g records 0 0

/-! ## Reachable graph states

Exactly the states produced by the public mutation API from a freshly
constructed graph. -/

inductive Reachable : Graph → Prop where
  | empty : Reachable Graph.empty
  | addNode (g : Graph) (node : Node) : Reachable g → Reachable (g.addNode node).1
  | removeNode (g : Graph) (id : Nat) : Reachable g → Reachable (g.removeNode id).1
  | connect (g : Graph) (a b c d : Nat) : Reachable g → Reachable (g.connect a b c d).1
  | disconnect (g : Graph) (id : Nat) : Reachable g → Reachable (g.disconnect id).1
  | appendConn (g : Graph) (c : Connection) : Reachable g → Reachable (g.appendConnection c).1
  | clearAll (g : Graph) : Reachable g → Reachable g.clearAll

/-! ## The graph consistency invariant

`WF` packages the bookkeeping facts the C++ class maintains: the node
lookup mirrors node storage, the connection lookup maps ids to correct
storage indices, the id counter exceeds every stored id, and both
adjacency indices exactly mirror connection storage (the invariant of
claim C3, plus what is needed to push it through every mutation). -/
structure WF (g : Graph) : Prop where
  nodesNodup : (g.nodes.map Node.id).Nodup
  nodeLookupNodup : g.nodeLookup.Nodup
  lookupNodes : ∀ id : Nat, id ∈ g.nodeLookup ↔ ∃ n, n ∈ g.nodes ∧ n.id = id
  lookIdx : ∀ k i, assocLookup g.connLookup k = some i →
    ∃ c, g.connections[i]? = some c ∧ c.id = k
  idxLook : ∀ i c, g.connections[i]? = some c → assocLookup g.connLookup c.id = some i
  lookKeysNodup : (g.connLookup.map Prod.fst).Nodup
  counterGt : ∀ c ∈ g.connections, c.id < g.nextConnId
  adjOutKeysNodup : (g.adjOut.map Prod.fst).Nodup
  adjInKeysNodup : (g.adjIn.map Prod.fst).Nodup
  connInAdj : ∀ c ∈ g.connections,
    c.id ∈ g.getConnectionsFrom c.from_node ∧ c.id ∈ g.getConnectionsTo c.to_node
  adjOutSound : ∀ n cid, cid ∈ g.getConnectionsFrom n →
    ∃ c, c ∈ g.connections ∧ c.id = cid ∧ c.from_node = n
  adjInSound : ∀ n cid, cid ∈ g.getConnectionsTo n →
    ∃ c, c ∈ g.connections ∧ c.id = cid ∧ c.to_node = n
  endpointsExist : ∀ c ∈ g.connections,
    g.hasNode c.from_node = true ∧ g.hasNode c.to_node = true

/-! ## Definitions used by the DFS correctness statements -/

/-- A directed execution edge of the graph. -/
def ExecEdge (g : Graph) (u v : Nat) : Prop :=
  ∃ c, c ∈ g.connections ∧ c.type = ConnectionType.Execution ∧
    c.from_node = u ∧ c.to_node = v

/-- Every execution successor of a listed node appears strictly earlier
in the (post-order) result list. -/
def Closed (g : Graph) (res : List Nat) : Prop :=
  ∀ u v, ExecEdge g u v → u ∈ res → v ∈ res ∧ res.indexOf v < res.indexOf u

/-- Invariant of the topological-sort DFS state. -/
structure DfsInv (g : Graph) (s : DfsState) : Prop where
  visIff : ∀ x, x ∈ s.visited ↔ (x ∈ s.inStack ∨ x ∈ s.result)
  stackRes : ∀ x ∈ s.inStack, x ∉ s.result
  resNodup : s.result.Nodup
  stackNodup : s.inStack.Nodup
  resClosed : Closed g s.result

/-- Prepend `r` to the result list of a DFS outcome (the result list is
write-only, so a run started with result `r` is the `[]`-run shifted). -/
def shiftRes (r : List Nat) (p : Bool × DfsState) : Bool × DfsState :=
  (p.1, ⟨p.2.visited, p.2.inStack, r ++ p.2.result⟩)

/-- What a completed (cycle-free) DFS call guarantees relative to its
entry state: the invariant still holds, the recursion stack is restored,
and the visited set and result list only grew. -/
def TopoDfsPost (g : Graph) (s s2 : DfsState) : Prop :=
  DfsInv g s2 ∧ s2.inStack = s.inStack ∧
  (∀ x ∈ s.visited, x ∈ s2.visited) ∧ (∀ x ∈ s.result, x ∈ s2.result)

/-! ## Concrete scenario fixtures

Factory-built nodes with explicit ids, mirroring a run of the global id
counters, and the graphs of the spec scenarios. -/

def startNode1 : Node := NodeFactory.createWithId 1 NodeTypes.Start "Start #1" 1

def endNode2 : Node := NodeFactory.createWithId 2 NodeTypes.End "End #2" 2

def printNode3 : Node := NodeFactory.createWithId 3 NodeTypes.PrintString "Print #3" 3

def startNode9 : Node := NodeFactory.createWithId 9 NodeTypes.Start "Start #9" 9

/-- Start and End nodes, unconnected. -/
def graphSE : Graph := ((Graph.empty.addNode startNode1).1.addNode endNode2).1

/-- Start → End over the execution ports. -/
def graphSE1 : Graph := (graphSE.connect 1 1 2 2).1

/-- A lone PrintString node (self-connection scenario D / claim C1). -/
def graphPrint : Graph := (Graph.empty.addNode printNode3).1

/-- Two Start nodes (claim C6). -/
def graphTwoStarts : Graph :=
  ((Graph.empty.addNode startNode1).1.addNode startNode9).1

/-- Start, PrintString, End, unconnected. -/
def graphSPE : Graph :=
  (((Graph.empty.addNode startNode1).1.addNode printNode3).1.addNode endNode2).1

/-- Scenario A (claim C8): Start→PrintString→End by execution edges,
PrintString's data input left unconnected. -/
def graphC8 : Graph := ((graphSPE.connect 1 1 3 3).1.connect 3 4 2 2).1

/-- The node set of the claim-C9 document: Start and PrintString. -/
def graphC9 : Graph := ((Graph.empty.addNode startNode1).1.addNode printNode3).1

/-! ## Association list lemmas -/

theorem assocLookup_set_self {κ α : Type} [DecidableEq κ] (l : List (κ × α)) (k : κ) (v : α) :
    assocLookup (assocSet l k v) k = some v := by
  induction l with
  | nil => simp [assocSet, assocLookup]
  | cons p rest ih =>
    by_cases h : p.1 = k
    · simp [assocSet, h, assocLookup]
    · simp [assocSet, h, assocLookup, ih]

theorem assocLookup_set_ne {κ α : Type} [DecidableEq κ] (l : List (κ × α)) (k k2 : κ) (v : α)
    (h : k2 ≠ k) : assocLookup (assocSet l k v) k2 = assocLookup l k2 := by
  induction l with
  | nil => simp [assocSet, assocLookup, Ne.symm h]
  | cons p rest ih =>
    by_cases hp : p.1 = k
    · simp [assocSet, hp, assocLookup, Ne.symm h, h]
    · by_cases hp2 : p.1 = k2
      · simp [assocSet, hp, assocLookup, hp2, h]
      · simp [assocSet, hp, assocLookup, hp2, ih]

theorem assocLookup_erase_ne {κ α : Type} [DecidableEq κ] (l : List (κ × α)) (k k2 : κ)
    (h : k2 ≠ k) : assocLookup (assocErase l k) k2 = assocLookup l k2 := by
  induction l with
  | nil => simp [assocErase]
  | cons p rest ih =>
    by_cases hp : p.1 = k
    · have hksym : k ≠ k2 := Ne.symm h
      have hne : p.1 ≠ k2 := by rw [hp]; exact hksym
      simp [assocErase, hp, assocLookup, hne, hksym]
    · by_cases hp2 : p.1 = k2
      · simp [assocErase, hp, assocLookup, hp2, h]
      · simp [assocErase, hp, assocLookup, hp2, ih]

theorem assocLookup_eq_none_iff {κ α : Type} [DecidableEq κ] (l : List (κ × α)) (k : κ) :
    assocLookup l k = none ↔ k ∉ l.map Prod.fst := by
  induction l with
  | nil => simp [assocLookup]
  | cons p rest ih =>
    by_cases hp : p.1 = k
    · simp [assocLookup, hp]
    · simp [assocLookup, hp, ih, Ne.symm hp]

theorem assocErase_sublist {κ α : Type} [DecidableEq κ] (l : List (κ × α)) (k : κ) :
    (assocErase l k).Sublist l := by
  induction l with
  | nil => simp [assocErase]
  | cons p rest ih =>
    by_cases hp : p.1 = k
    · simp [assocErase, hp]
    · simpa [assocErase, hp] using ih.cons₂ p

theorem assocLookup_erase_self {κ α : Type} [DecidableEq κ] (l : List (κ × α)) (k : κ)
    (hk : (l.map Prod.fst).Nodup) : assocLookup (assocErase l k) k = none := by
  induction l with
  | nil => simp [assocErase, assocLookup]
  | cons p rest ih =>
    have hk2 : (p.1 :: rest.map Prod.fst).Nodup := by simpa using hk
    rcases List.nodup_cons.mp hk2 with ⟨hniq, hrest⟩
    by_cases hp : p.1 = k
    · simp only [assocErase, hp, if_pos rfl]
      rw [assocLookup_eq_none_iff]
      rw [hp] at hniq
      exact hniq
    · simp [assocErase, hp, assocLookup, ih hrest]

theorem mem_keys_assocSet {κ α : Type} [DecidableEq κ] (l : List (κ × α)) (k : κ) (v : α)
    (x : κ) : x ∈ (assocSet l k v).map Prod.fst ↔ x ∈ l.map Prod.fst ∨ x = k := by
  induction l with
  | nil => simp [assocSet]
  | cons p rest ih =>
    by_cases hp : p.1 = k
    · subst hp
      simp [assocSet]
      tauto
    · simp [assocSet, hp, ih]
      tauto

theorem keys_nodup_assocSet {κ α : Type} [DecidableEq κ] (l : List (κ × α)) (k : κ) (v : α)
    (h : (l.map Prod.fst).Nodup) : ((assocSet l k v).map Prod.fst).Nodup := by
  induction l with
  | nil => simp [assocSet]
  | cons p rest ih =>
    have h2 : (p.1 :: rest.map Prod.fst).Nodup := by simpa using h
    rcases List.nodup_cons.mp h2 with ⟨hniq, hrest⟩
    by_cases hp : p.1 = k
    · subst hp
      simpa [assocSet] using List.nodup_cons.mpr ⟨hniq, hrest⟩
    · have hmem : p.1 ∉ (assocSet rest k v).map Prod.fst := by
        rw [mem_keys_assocSet]
        push_neg
        exact ⟨hniq, hp⟩
      simpa [assocSet, hp] using List.nodup_cons.mpr ⟨hmem, ih hrest⟩

theorem keys_nodup_assocErase {κ α : Type} [DecidableEq κ] (l : List (κ × α)) (k : κ)
    (h : (l.map Prod.fst).Nodup) : ((assocErase l k).map Prod.fst).Nodup :=
  (((assocErase_sublist l k).map Prod.fst).nodup h)

theorem assocLookup_mem {κ α : Type} [DecidableEq κ] (l : List (κ × α)) (k : κ) (v : α)
    (h : assocLookup l k = some v) : (k, v) ∈ l := by
  induction l with
  | nil => simp [assocLookup] at h
  | cons p rest ih =>
    by_cases hp : p.1 = k
    · simp only [assocLookup, if_pos hp] at h
      cases h
      have : (k, p.2) = p := by
        cases p
        simp_all
      rw [this]
      exact List.mem_cons_self _ _
    · simp only [assocLookup, if_neg hp] at h
      exact List.mem_cons_of_mem _ (ih h)

theorem mem_iff_getElem? {α : Type} (l : List α) (a : α) :
    a ∈ l ↔ ∃ i : Nat, l[i]? = some a := by
  constructor
  · intro h
    rcases List.mem_iff_getElem.mp h with ⟨i, hi, he⟩
    exact ⟨i, by simp [List.getElem?_eq_getElem hi, he]⟩
  · rintro ⟨i, hi⟩
    exact List.getElem?_mem hi

/-- Stored connections are determined by their id. -/
theorem WF.id_inj {g : Graph} (hwf : WF g) :
    ∀ c c2, c ∈ g.connections → c2 ∈ g.connections → c.id = c2.id → c = c2 := by
  intro c c2 hc hc2 hid
  rcases (mem_iff_getElem? _ _).mp hc with ⟨i, hi⟩
  rcases (mem_iff_getElem? _ _).mp hc2 with ⟨j, hj⟩
  have h1 := hwf.idxLook i c hi
  have h2 := hwf.idxLook j c2 hj
  rw [hid] at h1
  rw [h1] at h2
  cases h2
  rw [hi] at hj
  cases hj
  rfl

/-- The lookup map finds exactly the stored connection ids. -/
theorem WF.hasConnection_iff {g : Graph} (hwf : WF g) (k : Nat) :
    g.hasConnection k = true ↔ ∃ c, c ∈ g.connections ∧ c.id = k := by
  unfold Graph.hasConnection
  constructor
  · intro h
    rcases Option.isSome_iff_exists.mp h with ⟨i, hi⟩
    rcases hwf.lookIdx k i hi with ⟨c, hc, hck⟩
    exact ⟨c, List.getElem?_mem hc, hck⟩
  · rintro ⟨c, hc, rfl⟩
    rcases (mem_iff_getElem? _ _).mp hc with ⟨i, hi⟩
    rw [hwf.idxLook i c hi]
    rfl

/-- `Graph::get_connection` returns exactly the stored connection. -/
theorem WF.getConnection_eq {g : Graph} (hwf : WF g) (c : Connection)
    (hc : c ∈ g.connections) : g.getConnection c.id = some c := by
  rcases (mem_iff_getElem? _ _).mp hc with ⟨i, hi⟩
  unfold Graph.getConnection
  rw [hwf.idxLook i c hi]
  simpa using hi

theorem WF.getConnection_mem {g : Graph} (hwf : WF g) (k : Nat) (c : Connection)
    (h : g.getConnection k = some c) : c ∈ g.connections ∧ c.id = k := by
  unfold Graph.getConnection at h
  rcases Option.bind_eq_some.mp h with ⟨i, hi, hget⟩
  rcases hwf.lookIdx k i hi with ⟨c2, hc2, hck⟩
  rw [hget] at hc2
  cases hc2
  exact ⟨List.getElem?_mem hget, hck⟩

/-- A freshly constructed graph is well-formed. -/
theorem wf_empty : WF Graph.empty := by
  refine ⟨?_, ?_, ?_, ?_, ?_, ?_, ?_, ?_, ?_, ?_, ?_, ?_, ?_⟩ <;>
    simp [Graph.empty, assocLookup, Graph.getConnectionsFrom, Graph.getConnectionsTo,
      Graph.hasNode]

/-- `clear` restores well-formedness from any state. -/
theorem wf_clearAll (g : Graph) : WF g.clearAll := by
  refine ⟨?_, ?_, ?_, ?_, ?_, ?_, ?_, ?_, ?_, ?_, ?_, ?_, ?_⟩ <;>
    simp [Graph.clearAll, assocLookup, Graph.getConnectionsFrom, Graph.getConnectionsTo,
      Graph.hasNode]

/-- `hasNode` agrees with node-lookup membership. -/
theorem hasNode_iff_mem (g : Graph) (id : Nat) :
    g.hasNode id = true ↔ id ∈ g.nodeLookup := by
  unfold Graph.hasNode
  constructor
  · exact List.mem_of_elem_eq_true
  · exact List.elem_eq_true_of_mem

/-- `add_node` preserves the invariant. -/
theorem wf_addNode {g : Graph} (hwf : WF g) (node : Node) : WF (g.addNode node).1 := by
  unfold Graph.addNode
  by_cases hdup : g.nodeLookup.contains node.id = true
  · simp only [if_pos hdup]
    exact hwf
  · have hfresh : node.id ∉ g.nodeLookup := by
      intro hmem
      exact hdup (List.elem_eq_true_of_mem hmem)
    have hnonode : ¬ ∃ n, n ∈ g.nodes ∧ n.id = node.id := by
      intro hex
      exact hfresh ((hwf.lookupNodes node.id).mpr hex)
    simp only [if_neg hdup]
    refine ⟨?_, ?_, ?_, ?_, ?_, ?_, ?_, ?_, ?_, ?_, ?_, ?_, ?_⟩
    · rw [List.map_append]
      apply List.Nodup.append hwf.nodesNodup (by simp)
      intro x hx hy
      simp at hy
      apply hnonode
      rcases List.mem_map.mp hx with ⟨n, hn, hnx⟩
      exact ⟨n, hn, by rw [hnx, hy]⟩
    · apply List.Nodup.append hwf.nodeLookupNodup (by simp)
      intro x hx hy
      simp at hy
      subst hy
      exact hfresh hx
    · intro id
      constructor
      · intro hmem
        rcases List.mem_append.mp hmem with h | h
        · rcases (hwf.lookupNodes id).mp h with ⟨n, hn, hni⟩
          exact ⟨n, List.mem_append_left _ hn, hni⟩
        · simp at h
          exact ⟨node, List.mem_append_right _ (by simp), h.symm⟩
      · rintro ⟨n, hn, hni⟩
        rcases List.mem_append.mp hn with h | h
        · exact List.mem_append_left _ ((hwf.lookupNodes id).mpr ⟨n, h, hni⟩)
        · simp at h
          subst h
          simp [hni]
    · exact hwf.lookIdx
    · exact hwf.idxLook
    · exact hwf.lookKeysNodup
    · exact hwf.counterGt
    · exact keys_nodup_assocSet _ _ _ hwf.adjOutKeysNodup
    · exact keys_nodup_assocSet _ _ _ hwf.adjInKeysNodup
    · intro c hc
      have hep := hwf.endpointsExist c hc
      have hfrom : c.from_node ≠ node.id := by
        intro he
        apply hnonode
        rcases (hwf.lookupNodes c.from_node).mp ((hasNode_iff_mem g _).mp hep.1) with ⟨n, hn, hni⟩
        exact ⟨n, hn, by rw [hni, he]⟩
      have hto : c.to_node ≠ node.id := by
        intro he
        apply hnonode
        rcases (hwf.lookupNodes c.to_node).mp ((hasNode_iff_mem g _).mp hep.2) with ⟨n, hn, hni⟩
        exact ⟨n, hn, by rw [hni, he]⟩
      have h1 := hwf.connInAdj c hc
      unfold Graph.getConnectionsFrom Graph.getConnectionsTo at h1 ⊢
      rw [assocLookup_set_ne _ _ _ _ hfrom, assocLookup_set_ne _ _ _ _ hto]
      exact h1
    · intro n cid hcid
      unfold Graph.getConnectionsFrom at hcid
      by_cases hn : n = node.id
      · subst hn
        rw [assocLookup_set_self] at hcid
        simp at hcid
      · rw [assocLookup_set_ne _ _ _ _ hn] at hcid
        exact hwf.adjOutSound n cid hcid
    · intro n cid hcid
      unfold Graph.getConnectionsTo at hcid
      by_cases hn : n = node.id
      · subst hn
        rw [assocLookup_set_self] at hcid
        simp at hcid
      · rw [assocLookup_set_ne _ _ _ _ hn] at hcid
        exact hwf.adjInSound n cid hcid
    · intro c hc
      have hep := hwf.endpointsExist c hc
      simp only [hasNode_iff_mem] at hep ⊢
      exact ⟨List.mem_append_left _ hep.1, List.mem_append_left _ hep.2⟩

theorem getElem?_some_lt {α : Type} {l : List α} {i : Nat} {a : α}
    (h : l[i]? = some a) : i < l.length := by
  by_contra hn
  push_neg at hn
  rw [List.getElem?_eq_none hn] at h
  cases h

theorem getElem?_append_left {α : Type} {l1 l2 : List α} {i : Nat} (h : i < l1.length) :
    (l1 ++ l2)[i]? = l1[i]? := by
  rw [List.getElem?_append]
  simp [h]

/-- Appending a fresh connection to storage, lookup, and both adjacency
indices (the common storage step of `connect` and `append_connection`)
preserves the invariant. -/
theorem wf_pushConn {g : Graph} (hwf : WF g) (conn : Connection) (nextId : Nat)
    (hfresh : ∀ c ∈ g.connections, c.id ≠ conn.id)
    (hfrom : g.hasNode conn.from_node = true) (hto : g.hasNode conn.to_node = true)
    (hnext : ∀ c ∈ g.connections, c.id < nextId) (hnewNext : conn.id < nextId) :
    WF { g with
      connections := g.connections ++ [conn],
      connLookup := assocSet g.connLookup conn.id g.connections.length,
      adjOut := assocSet g.adjOut conn.from_node
        (((assocLookup g.adjOut conn.from_node).getD []) ++ [conn.id]),
      adjIn := assocSet g.adjIn conn.to_node
        (((assocLookup g.adjIn conn.to_node).getD []) ++ [conn.id]),
      nextConnId := nextId } := by
  have hkeyOld : ∀ k i, assocLookup g.connLookup k = some i → k ≠ conn.id := by
    intro k i hk
    rcases hwf.lookIdx k i hk with ⟨c, hc, hck⟩
    rw [← hck]
    exact hfresh c (List.getElem?_mem hc)
  refine ⟨hwf.nodesNodup, hwf.nodeLookupNodup, hwf.lookupNodes, ?_, ?_, ?_, ?_, ?_, ?_,
    ?_, ?_, ?_, ?_⟩
  · -- lookIdx
    intro k i hk
    by_cases hkc : k = conn.id
    · subst hkc
      rw [assocLookup_set_self] at hk
      cases hk
      refine ⟨conn, ?_, rfl⟩
      rw [List.getElem?_append_right (le_refl _)]
      simp
    · rw [assocLookup_set_ne _ _ _ _ hkc] at hk
      rcases hwf.lookIdx k i hk with ⟨c, hc, hck⟩
      refine ⟨c, ?_, hck⟩
      rw [getElem?_append_left (getElem?_some_lt hc)]
      exact hc
  · -- idxLook
    intro i c hc
    by_cases hi : i < g.connections.length
    · rw [getElem?_append_left hi] at hc
      have hne : c.id ≠ conn.id := hfresh c (List.getElem?_mem hc)
      rw [assocLookup_set_ne _ _ _ _ hne]
      exact hwf.idxLook i c hc
    · push_neg at hi
      have hlen : i < (g.connections ++ [conn]).length := getElem?_some_lt hc
      simp only [List.length_append, List.length_cons, List.length_nil] at hlen
      have hieq : i = g.connections.length := by omega
      subst hieq
      rw [List.getElem?_append_right (le_refl _)] at hc
      simp only [Nat.sub_self, List.getElem?_cons_zero] at hc
      cases hc
      exact assocLookup_set_self _ _ _
  · exact keys_nodup_assocSet _ _ _ hwf.lookKeysNodup
  · intro c hc
    rcases List.mem_append.mp hc with h | h
    · exact hnext c h
    · simp at h
      subst h
      exact hnewNext
  · exact keys_nodup_assocSet _ _ _ hwf.adjOutKeysNodup
  · exact keys_nodup_assocSet _ _ _ hwf.adjInKeysNodup
  · -- connInAdj
    intro c hc
    unfold Graph.getConnectionsFrom Graph.getConnectionsTo
    rcases List.mem_append.mp hc with h | h
    · have h1 := hwf.connInAdj c h
      unfold Graph.getConnectionsFrom Graph.getConnectionsTo at h1
      constructor
      · by_cases he : c.from_node = conn.from_node
        · rw [he, assocLookup_set_self]
          simp only [Option.getD_some]
          exact List.mem_append_left _ (he ▸ h1.1)
        · rw [assocLookup_set_ne _ _ _ _ he]
          exact h1.1
      · by_cases he : c.to_node = conn.to_node
        · rw [he, assocLookup_set_self]
          simp only [Option.getD_some]
          exact List.mem_append_left _ (he ▸ h1.2)
        · rw [assocLookup_set_ne _ _ _ _ he]
          exact h1.2
    · simp at h
      subst h
      constructor
      · rw [assocLookup_set_self]
        simp
      · rw [assocLookup_set_self]
        simp
  · -- adjOutSound
    intro n cid hcid
    unfold Graph.getConnectionsFrom at hcid
    by_cases hn : n = conn.from_node
    · subst hn
      rw [assocLookup_set_self] at hcid
      simp only [Option.getD_some] at hcid
      rcases List.mem_append.mp hcid with h | h
      · rcases hwf.adjOutSound _ cid h with ⟨c, hcm, hci, hcf⟩
        exact ⟨c, List.mem_append_left _ hcm, hci, hcf⟩
      · simp at h
        subst h
        exact ⟨conn, List.mem_append_right _ (by simp), rfl, rfl⟩
    · rw [assocLookup_set_ne _ _ _ _ hn] at hcid
      rcases hwf.adjOutSound n cid hcid with ⟨c, hcm, hci, hcf⟩
      exact ⟨c, List.mem_append_left _ hcm, hci, hcf⟩
  · -- adjInSound
    intro n cid hcid
    unfold Graph.getConnectionsTo at hcid
    by_cases hn : n = conn.to_node
    · subst hn
      rw [assocLookup_set_self] at hcid
      simp only [Option.getD_some] at hcid
      rcases List.mem_append.mp hcid with h | h
      · rcases hwf.adjInSound _ cid h with ⟨c, hcm, hci, hcf⟩
        exact ⟨c, List.mem_append_left _ hcm, hci, hcf⟩
      · simp at h
        subst h
        exact ⟨conn, List.mem_append_right _ (by simp), rfl, rfl⟩
    · rw [assocLookup_set_ne _ _ _ _ hn] at hcid
      rcases hwf.adjInSound n cid hcid with ⟨c, hcm, hci, hcf⟩
      exact ⟨c, List.mem_append_left _ hcm, hci, hcf⟩
  · -- endpointsExist
    intro c hc
    rcases List.mem_append.mp hc with h | h
    · exact hwf.endpointsExist c h
    · simp at h
      subst h
      exact ⟨hfrom, hto⟩

/-- A successful connection validation implies both nodes exist. -/
theorem validateConnection_ok_hasNode {g : Graph} {a b c d : Nat}
    (h : g.validateConnection a b c d = .ok ()) :
    g.hasNode a = true ∧ g.hasNode c = true := by
  unfold Graph.validateConnection Graph.validateNodeExists Result.andThen at h
  by_cases ha : g.hasNode a = true
  · by_cases hc : g.hasNode c = true
    · exact ⟨ha, hc⟩
    · rw [Bool.not_eq_true] at hc
      simp [ha, hc] at h
  · rw [Bool.not_eq_true] at ha
    simp [ha] at h

/-- `connect` preserves the invariant. -/
theorem wf_connect {g : Graph} (hwf : WF g) (a b c d : Nat) : WF (g.connect a b c d).1 := by
  unfold Graph.connect
  cases hv : g.validateConnection a b c d with
  | error e => exact hwf
  | ok u =>
    obtain ⟨ha, hc⟩ := validateConnection_ok_hasNode hv
    have hfresh : ∀ x ∈ g.connections, x.id ≠ g.nextConnId := by
      intro x hx
      exact Nat.ne_of_lt (hwf.counterGt x hx)
    exact wf_pushConn hwf _ (g.nextConnId + 1) hfresh ha hc
      (fun x hx => Nat.lt_succ_of_lt (hwf.counterGt x hx)) (Nat.lt_succ_self _)

/-- `append_connection` preserves the invariant. -/
theorem wf_appendConnection {g : Graph} (hwf : WF g) (c : Connection) :
    WF (g.appendConnection c).1 := by
  unfold Graph.appendConnection
  by_cases h0 : c.id = 0
  · rw [if_pos h0]
    exact hwf
  · rw [if_neg h0]
    by_cases hlk : (assocLookup g.connLookup c.id).isSome = true
    · rw [if_pos hlk]
      exact hwf
    · rw [if_neg hlk]
      have hnone : assocLookup g.connLookup c.id = none := by
        cases hx : assocLookup g.connLookup c.id with
        | none => rfl
        | some v => rw [hx] at hlk; simp at hlk
      have hfresh : ∀ x ∈ g.connections, x.id ≠ c.id := by
        intro x hx he
        rcases (mem_iff_getElem? _ _).mp hx with ⟨i, hi⟩
        have h2 := hwf.idxLook i x hi
        rw [he, hnone] at h2
        cases h2
      cases hv : g.validateConnection c.from_node c.from_port c.to_node c.to_port with
      | error e => exact hwf
      | ok u =>
        obtain ⟨ha, hb⟩ := validateConnection_ok_hasNode hv
        cases hp : (g.getNode c.from_node).bind (fun n => n.findPort c.from_port) with
        | none => exact hwf
        | some fp =>
          dsimp only
          by_cases hty : (if fp.isExecution = true then ConnectionType.Execution
              else ConnectionType.Data) ≠ c.type
          · rw [if_pos hty]
            exact hwf
          · rw [if_neg hty]
            unfold Graph.seedConnectionCounter
            dsimp only
            by_cases hseed : g.nextConnId < c.id + 1
            · rw [if_pos hseed]
              exact wf_pushConn hwf c (c.id + 1) hfresh ha hb
                (fun x hx => by have h1 := hwf.counterGt x hx; omega)
                (Nat.lt_succ_self _)
            · rw [if_neg hseed]
              rw [not_lt] at hseed
              exact wf_pushConn hwf c g.nextConnId hfresh ha hb hwf.counterGt (by omega)

theorem getElem?_dropLast {α : Type} (l : List α) (i : Nat) :
    l.dropLast[i]? = if i < l.length - 1 then l[i]? else none := by
  rw [List.dropLast_eq_take, List.getElem?_take]

/-- Shared part of the `disconnect` preservation argument: once the new
connection storage is characterised by membership and the new lookup is
characterised index-wise, the adjacency bookkeeping (removing the id
from both endpoint lists) keeps the whole invariant. -/
theorem wf_disconnect_core {g : Graph} (hwf : WF g) (conn0 : Connection)
    (hc0 : conn0 ∈ g.connections)
    (newConns : List Connection) (newLookup : List (Nat × Nat))
    (hmem : ∀ c, c ∈ newConns ↔ c ∈ g.connections ∧ c.id ≠ conn0.id)
    (hlookIdx : ∀ k i, assocLookup newLookup k = some i →
      ∃ c, newConns[i]? = some c ∧ c.id = k)
    (hidxLook : ∀ i c, newConns[i]? = some c → assocLookup newLookup c.id = some i)
    (hkeysNodup : (newLookup.map Prod.fst).Nodup) :
    WF { g with
      connections := newConns,
      connLookup := newLookup,
      adjOut := assocSet g.adjOut conn0.from_node
        (((assocLookup g.adjOut conn0.from_node).getD []).filter (fun x => x ≠ conn0.id)),
      adjIn := assocSet g.adjIn conn0.to_node
        (((assocLookup g.adjIn conn0.to_node).getD []).filter (fun x => x ≠ conn0.id)) } := by
  refine ⟨hwf.nodesNodup, hwf.nodeLookupNodup, hwf.lookupNodes, hlookIdx, hidxLook,
    hkeysNodup, ?_, ?_, ?_, ?_, ?_, ?_, ?_⟩
  · intro c hc
    exact hwf.counterGt c ((hmem c).mp hc).1
  · exact keys_nodup_assocSet _ _ _ hwf.adjOutKeysNodup
  · exact keys_nodup_assocSet _ _ _ hwf.adjInKeysNodup
  · -- connInAdj
    intro c hc
    obtain ⟨hcg, hcid⟩ := (hmem c).mp hc
    have h1 := hwf.connInAdj c hcg
    unfold Graph.getConnectionsFrom Graph.getConnectionsTo at h1 ⊢
    constructor
    · by_cases he : c.from_node = conn0.from_node
      · rw [he, assocLookup_set_self]
        simp only [Option.getD_some]
        apply List.mem_filter.mpr
        refine ⟨he ▸ h1.1, by simpa using hcid⟩
      · rw [assocLookup_set_ne _ _ _ _ he]
        exact h1.1
    · by_cases he : c.to_node = conn0.to_node
      · rw [he, assocLookup_set_self]
        simp only [Option.getD_some]
        apply List.mem_filter.mpr
        refine ⟨he ▸ h1.2, by simpa using hcid⟩
      · rw [assocLookup_set_ne _ _ _ _ he]
        exact h1.2
  · -- adjOutSound
    intro n cid hcid
    unfold Graph.getConnectionsFrom at hcid
    by_cases hn : n = conn0.from_node
    · subst hn
      rw [assocLookup_set_self] at hcid
      simp only [Option.getD_some] at hcid
      obtain ⟨hold, hne⟩ := List.mem_filter.mp hcid
      have hne2 : cid ≠ conn0.id := by simpa using hne
      rcases hwf.adjOutSound _ cid hold with ⟨c, hcm, hci, hcf⟩
      refine ⟨c, (hmem c).mpr ⟨hcm, by rw [hci]; exact hne2⟩, hci, hcf⟩
    · rw [assocLookup_set_ne _ _ _ _ hn] at hcid
      rcases hwf.adjOutSound n cid hcid with ⟨c, hcm, hci, hcf⟩
      have hne : c.id ≠ conn0.id := by
        intro he
        have h2 := hwf.id_inj c conn0 hcm hc0 he
        apply hn
        rw [← hcf, h2]
      exact ⟨c, (hmem c).mpr ⟨hcm, hne⟩, hci, hcf⟩
  · -- adjInSound
    intro n cid hcid
    unfold Graph.getConnectionsTo at hcid
    by_cases hn : n = conn0.to_node
    · subst hn
      rw [assocLookup_set_self] at hcid
      simp only [Option.getD_some] at hcid
      obtain ⟨hold, hne⟩ := List.mem_filter.mp hcid
      have hne2 : cid ≠ conn0.id := by simpa using hne
      rcases hwf.adjInSound _ cid hold with ⟨c, hcm, hci, hcf⟩
      refine ⟨c, (hmem c).mpr ⟨hcm, by rw [hci]; exact hne2⟩, hci, hcf⟩
    · rw [assocLookup_set_ne _ _ _ _ hn] at hcid
      rcases hwf.adjInSound n cid hcid with ⟨c, hcm, hci, hcf⟩
      have hne : c.id ≠ conn0.id := by
        intro he
        have h2 := hwf.id_inj c conn0 hcm hc0 he
        apply hn
        rw [← hcf, h2]
      exact ⟨c, (hmem c).mpr ⟨hcm, hne⟩, hci, hcf⟩
  · -- endpointsExist
    intro c hc
    exact hwf.endpointsExist c ((hmem c).mp hc).1

/-- Successful `disconnect` removes exactly the looked-up connection,
keeps every other one, and preserves the invariant. -/
theorem disconnect_ok {g : Graph} (hwf : WF g) (id index : Nat)
    (hlk : assocLookup g.connLookup id = some index) :
    (g.disconnect id).2 = .ok () ∧
    WF (g.disconnect id).1 ∧
    (g.disconnect id).1.connections.length + 1 = g.connections.length ∧
    (∀ c, c ∈ (g.disconnect id).1.connections ↔ c ∈ g.connections ∧ c.id ≠ id) ∧
    (g.disconnect id).1.hasConnection id = false ∧
    (g.disconnect id).1.nodes = g.nodes ∧
    (g.disconnect id).1.nodeLookup = g.nodeLookup ∧
    (g.disconnect id).1.nextConnId = g.nextConnId := by
  obtain ⟨conn0, hc0get, hc0id⟩ := hwf.lookIdx id index hlk
  subst hc0id
  have hc0mem : conn0 ∈ g.connections := List.getElem?_mem hc0get
  have hidx : index < g.connections.length := getElem?_some_lt hc0get
  have hgetD : g.connections.getD index ⟨0, 0, 0, 0, 0, .Data⟩ = conn0 := by
    rw [List.getD_eq_getElem?_getD, hc0get]
    rfl
  have hsome_inj : ∀ i2, assocLookup g.connLookup conn0.id = some i2 → i2 = index := by
    intro i2 h2
    rw [hlk] at h2
    exact (Option.some.inj h2).symm
  unfold Graph.disconnect
  rw [hlk]
  dsimp only
  rw [hgetD]
  by_cases hcase : index < g.connections.length - 1
  · -- swap-and-pop: the last connection moves into the freed slot
    rw [if_pos hcase]
    have hlen1 : 1 ≤ g.connections.length := by omega
    obtain ⟨back, hbackget⟩ : ∃ b, g.connections[g.connections.length - 1]? = some b := by
      have : g.connections.length - 1 < g.connections.length := by omega
      rcases List.getElem?_eq_some_iff.mpr ⟨this, rfl⟩ with h
      exact ⟨_, h⟩
    have hbackD : (g.connections.getLast?).getD ⟨0, 0, 0, 0, 0, .Data⟩ = back := by
      rw [List.getLast?_eq_getElem?, hbackget]
      rfl
    rw [hbackD]
    have hbackmem : back ∈ g.connections := List.getElem?_mem hbackget
    have hbacklook := hwf.idxLook _ back hbackget
    have hbackid_ne : back.id ≠ conn0.id := by
      intro he
      have := hsome_inj _ (he ▸ hbacklook)
      omega
    set newConns := (g.connections.set index back).dropLast with hnewConns
    have hnewlen : newConns.length = g.connections.length - 1 := by
      simp [hnewConns]
    have hget_new : ∀ i : Nat, newConns[i]? =
        if i < g.connections.length - 1 then
          (if index = i then some back else g.connections[i]?) else none := by
      intro i
      rw [hnewConns, getElem?_dropLast]
      simp only [List.length_set]
      by_cases h1 : i < g.connections.length - 1
      · rw [if_pos h1, if_pos h1]
        by_cases h2 : index = i
        · subst h2
          simp [List.getElem?_set, hidx]
        · rw [List.getElem?_set_ne h2, if_neg h2]
      · rw [if_neg h1, if_neg h1]
    have hmem : ∀ c, c ∈ newConns ↔ c ∈ g.connections ∧ c.id ≠ conn0.id := by
      intro c
      constructor
      · intro hc
        rcases (mem_iff_getElem? _ _).mp hc with ⟨i, hi⟩
        rw [hget_new i] at hi
        by_cases h1 : i < g.connections.length - 1
        · rw [if_pos h1] at hi
          by_cases h2 : index = i
          · rw [if_pos h2] at hi
            cases hi
            exact ⟨hbackmem, hbackid_ne⟩
          · rw [if_neg h2] at hi
            refine ⟨List.getElem?_mem hi, ?_⟩
            intro he
            have := hsome_inj i (he ▸ hwf.idxLook i c hi)
            exact h2 this.symm
        · rw [if_neg h1] at hi
          cases hi
      · rintro ⟨hcm, hcne⟩
        rcases (mem_iff_getElem? _ _).mp hcm with ⟨j, hj⟩
        have hjlen : j < g.connections.length := getElem?_some_lt hj
        have hjne : j ≠ index := by
          intro he
          subst he
          rw [hj] at hc0get
          cases hc0get
          exact hcne rfl
        rw [mem_iff_getElem?]
        by_cases hjlast : j = g.connections.length - 1
        · subst hjlast
          rw [hj] at hbackget
          cases hbackget
          refine ⟨index, ?_⟩
          rw [hget_new index, if_pos hcase, if_pos rfl]
        · refine ⟨j, ?_⟩
          rw [hget_new j, if_pos (by omega), if_neg (by omega)]
          exact hj
    have hlookIdx : ∀ k i2, assocLookup (assocSet (assocErase g.connLookup conn0.id)
        back.id index) k = some i2 → ∃ c, newConns[i2]? = some c ∧ c.id = k := by
      intro k i2 hk
      by_cases hkb : k = back.id
      · subst hkb
        rw [assocLookup_set_self] at hk
        cases hk
        refine ⟨back, ?_, rfl⟩
        rw [hget_new index, if_pos hcase, if_pos rfl]
      · rw [assocLookup_set_ne _ _ _ _ hkb] at hk
        by_cases hkc : k = conn0.id
        · subst hkc
          rw [assocLookup_erase_self _ _ hwf.lookKeysNodup] at hk
          cases hk
        · rw [assocLookup_erase_ne _ _ _ hkc] at hk
          rcases hwf.lookIdx k i2 hk with ⟨c, hc, hck⟩
          have hi2ne : i2 ≠ index := by
            intro he
            subst he
            rw [hc] at hc0get
            cases hc0get
            exact hkc hck.symm
          have hi2nl : i2 ≠ g.connections.length - 1 := by
            intro he
            subst he
            rw [hc] at hbackget
            cases hbackget
            exact hkb hck.symm
          have hi2len : i2 < g.connections.length := getElem?_some_lt hc
          refine ⟨c, ?_, hck⟩
          rw [hget_new i2, if_pos (by omega), if_neg (by omega)]
          exact hc
    have hidxLook : ∀ i2 c, newConns[i2]? = some c →
        assocLookup (assocSet (assocErase g.connLookup conn0.id) back.id index) c.id
          = some i2 := by
      intro i2 c hc
      rw [hget_new i2] at hc
      by_cases h1 : i2 < g.connections.length - 1
      · rw [if_pos h1] at hc
        by_cases h2 : index = i2
        · rw [if_pos h2] at hc
          cases hc
          rw [h2] at hlk hc0get ⊢
          rw [assocLookup_set_self]
        · rw [if_neg h2] at hc
          have hcid_ne : c.id ≠ conn0.id := by
            intro he
            exact h2 (hsome_inj i2 (he ▸ hwf.idxLook i2 c hc)).symm
          have hcid_nb : c.id ≠ back.id := by
            intro he
            have h3 := hwf.id_inj c back (List.getElem?_mem hc) hbackmem he
            subst h3
            have h4 := hwf.idxLook _ _ hbackget
            have h5 := hwf.idxLook _ _ hc
            rw [h4] at h5
            cases h5
            omega
          rw [assocLookup_set_ne _ _ _ _ hcid_nb, assocLookup_erase_ne _ _ _ hcid_ne]
          exact hwf.idxLook i2 c hc
      · rw [if_neg h1] at hc
        cases hc
    have hkeys : (((assocSet (assocErase g.connLookup conn0.id) back.id index)).map
        Prod.fst).Nodup :=
      keys_nodup_assocSet _ _ _ (keys_nodup_assocErase _ _ hwf.lookKeysNodup)
    refine ⟨rfl, ?_, ?_, ?_, ?_, rfl, rfl, rfl⟩
    · exact wf_disconnect_core hwf conn0 hc0mem newConns _ hmem hlookIdx hidxLook hkeys
    · simp only [hnewlen]
      omega
    · exact hmem
    · unfold Graph.hasConnection
      dsimp only
      rw [assocLookup_set_ne _ _ _ _ (Ne.symm hbackid_ne),
        assocLookup_erase_self _ _ hwf.lookKeysNodup]
      rfl
  · -- the connection sits in the last slot: plain pop
    rw [if_neg hcase]
    have hieq : index = g.connections.length - 1 := by omega
    set newConns := g.connections.dropLast with hnewConns
    have hnewlen : newConns.length = g.connections.length - 1 := by simp [hnewConns]
    have hget_new : ∀ i : Nat, newConns[i]? =
        if i < g.connections.length - 1 then g.connections[i]? else none := by
      intro i
      rw [hnewConns, getElem?_dropLast]
    have hmem : ∀ c, c ∈ newConns ↔ c ∈ g.connections ∧ c.id ≠ conn0.id := by
      intro c
      constructor
      · intro hc
        rcases (mem_iff_getElem? _ _).mp hc with ⟨i, hi⟩
        rw [hget_new i] at hi
        by_cases h1 : i < g.connections.length - 1
        · rw [if_pos h1] at hi
          refine ⟨List.getElem?_mem hi, ?_⟩
          intro he
          have h2 := hsome_inj i (he ▸ hwf.idxLook i c hi)
          omega
        · rw [if_neg h1] at hi
          cases hi
      · rintro ⟨hcm, hcne⟩
        rcases (mem_iff_getElem? _ _).mp hcm with ⟨j, hj⟩
        have hjlen : j < g.connections.length := getElem?_some_lt hj
        have hjne : j ≠ index := by
          intro he
          subst he
          rw [hj] at hc0get
          cases hc0get
          exact hcne rfl
        rw [mem_iff_getElem?]
        refine ⟨j, ?_⟩
        rw [hget_new j, if_pos (by omega)]
        exact hj
    have hlookIdx : ∀ k i2, assocLookup (assocErase g.connLookup conn0.id) k = some i2 →
        ∃ c, newConns[i2]? = some c ∧ c.id = k := by
      intro k i2 hk
      by_cases hkc : k = conn0.id
      · subst hkc
        rw [assocLookup_erase_self _ _ hwf.lookKeysNodup] at hk
        cases hk
      · rw [assocLookup_erase_ne _ _ _ hkc] at hk
        rcases hwf.lookIdx k i2 hk with ⟨c, hc, hck⟩
        have hi2ne : i2 ≠ index := by
          intro he
          subst he
          rw [hc] at hc0get
          cases hc0get
          exact hkc hck.symm
        have hi2len : i2 < g.connections.length := getElem?_some_lt hc
        refine ⟨c, ?_, hck⟩
        rw [hget_new i2, if_pos (by omega)]
        exact hc
    have hidxLook : ∀ i2 c, newConns[i2]? = some c →
        assocLookup (assocErase g.connLookup conn0.id) c.id = some i2 := by
      intro i2 c hc
      rw [hget_new i2] at hc
      by_cases h1 : i2 < g.connections.length - 1
      · rw [if_pos h1] at hc
        have hcid_ne : c.id ≠ conn0.id := by
          intro he
          have h2 := hsome_inj i2 (he ▸ hwf.idxLook i2 c hc)
          omega
        rw [assocLookup_erase_ne _ _ _ hcid_ne]
        exact hwf.idxLook i2 c hc
      · rw [if_neg h1] at hc
        cases hc
    refine ⟨rfl, ?_, ?_, ?_, ?_, rfl, rfl, rfl⟩
    · exact wf_disconnect_core hwf conn0 hc0mem newConns _ hmem hlookIdx hidxLook
        (keys_nodup_assocErase _ _ hwf.lookKeysNodup)
    · simp only [hnewlen]
      omega
    · exact hmem
    · unfold Graph.hasConnection
      dsimp only
      rw [assocLookup_erase_self _ _ hwf.lookKeysNodup]
      rfl

/-- `disconnect` preserves the invariant (no-op when the id is absent). -/
theorem wf_disconnect {g : Graph} (hwf : WF g) (id : Nat) : WF (g.disconnect id).1 := by
  cases hlk : assocLookup g.connLookup id with
  | none =>
    unfold Graph.disconnect
    rw [hlk]
    exact hwf
  | some index => exact (disconnect_ok hwf id index hlk).2.1

/-! ## Sorting and deduplication helpers for `remove_node_connections` -/

theorem mem_insertNat (x a : Nat) (l : List Nat) :
    a ∈ insertNat x l ↔ a = x ∨ a ∈ l := by
  induction l with
  | nil => simp [insertNat]
  | cons y rest ih =>
    by_cases h : x ≤ y
    · simp [insertNat, h]
    · simp [insertNat, h, ih]
      tauto

theorem mem_sortNat (a : Nat) (l : List Nat) : a ∈ sortNat l ↔ a ∈ l := by
  induction l with
  | nil => simp [sortNat]
  | cons x rest ih => simp [sortNat, mem_insertNat, ih]

theorem sorted_insertNat (x : Nat) (l : List Nat) (h : l.Sorted (· ≤ ·)) :
    (insertNat x l).Sorted (· ≤ ·) := by
  induction l with
  | nil => simp [insertNat]
  | cons y rest ih =>
    rcases List.sorted_cons.mp h with ⟨hy, hrest⟩
    by_cases hxy : x ≤ y
    · rw [show insertNat x (y :: rest) = x :: y :: rest from by simp [insertNat, hxy]]
      refine List.sorted_cons.mpr ⟨?_, h⟩
      intro b hb
      rcases List.mem_cons.mp hb with rfl | hb2
      · exact hxy
      · exact le_trans hxy (hy b hb2)
    · rw [show insertNat x (y :: rest) = y :: insertNat x rest from by simp [insertNat, hxy]]
      refine List.sorted_cons.mpr ⟨?_, ih hrest⟩
      intro b hb
      rcases (mem_insertNat x b rest).mp hb with rfl | hb2
      · omega
      · exact hy b hb2

theorem sorted_sortNat (l : List Nat) : (sortNat l).Sorted (· ≤ ·) := by
  induction l with
  | nil => simp [sortNat]
  | cons x rest ih => exact sorted_insertNat x _ ih

theorem mem_uniqueAdj (a : Nat) (l : List Nat) : a ∈ uniqueAdj l ↔ a ∈ l := by
  induction l with
  | nil => simp [uniqueAdj]
  | cons x rest ih =>
    cases rest with
    | nil => simp [uniqueAdj]
    | cons y rest2 =>
      by_cases h : x = y
      · subst h
        rw [show uniqueAdj (x :: x :: rest2) = uniqueAdj (x :: rest2) from by
          simp [uniqueAdj]]
        rw [ih]
        simp
      · rw [show uniqueAdj (x :: y :: rest2) = x :: uniqueAdj (y :: rest2) from by
          simp [uniqueAdj, h]]
        simp only [List.mem_cons] at ih ⊢
        rw [ih]

theorem nodup_uniqueAdj (l : List Nat) (h : l.Sorted (· ≤ ·)) : (uniqueAdj l).Nodup := by
  induction l with
  | nil => simp [uniqueAdj]
  | cons x rest ih =>
    cases rest with
    | nil => simp [uniqueAdj]
    | cons y rest2 =>
      rcases List.sorted_cons.mp h with ⟨hx, hrest⟩
      by_cases hxy : x = y
      · subst hxy
        rw [show uniqueAdj (x :: x :: rest2) = uniqueAdj (x :: rest2) from by
          simp [uniqueAdj]]
        exact ih hrest
      · rw [show uniqueAdj (x :: y :: rest2) = x :: uniqueAdj (y :: rest2) from by
          simp [uniqueAdj, hxy]]
        refine List.nodup_cons.mpr ⟨?_, ih hrest⟩
        intro hmem
        have hx2 := (mem_uniqueAdj x (y :: rest2)).mp hmem
        have hle := hx x (by simpa using hx2)
        rcases List.mem_cons.mp hx2 with rfl | hx3
        · exact hxy rfl
        · have hyx : y ≤ x := by
            rcases List.sorted_cons.mp hrest with ⟨hy2, _⟩
            exact hy2 x hx3
          have : x = y := le_antisymm (hx y (by simp)) hyx
          exact hxy this

/-- With pairwise-distinct node ids, `eraseP` removes exactly the nodes
carrying the requested id. -/
theorem mem_eraseP_nodes (nodes : List Node) (hnd : (nodes.map Node.id).Nodup)
    (id : Nat) (n : Node) :
    n ∈ nodes.eraseP (fun x => x.id = id) ↔ n ∈ nodes ∧ n.id ≠ id := by
  induction nodes with
  | nil => simp
  | cons m rest ih =>
    have h2 : (m.id :: rest.map Node.id).Nodup := by simpa using hnd
    rcases List.nodup_cons.mp h2 with ⟨hmid, hrest⟩
    by_cases hm : m.id = id
    · rw [List.eraseP_cons_of_pos (by simpa using hm)]
      constructor
      · intro hn
        refine ⟨List.mem_cons_of_mem _ hn, ?_⟩
        intro he
        apply hmid
        exact List.mem_map.mpr ⟨n, hn, by rw [he, hm]⟩
      · rintro ⟨hn, hne⟩
        rcases List.mem_cons.mp hn with rfl | h3
        · exact absurd hm hne
        · exact h3
    · rw [List.eraseP_cons_of_neg (by simpa using hm)]
      constructor
      · intro hn
        rcases List.mem_cons.mp hn with rfl | h3
        · exact ⟨List.mem_cons_self _ _, hm⟩
        · obtain ⟨h4, h5⟩ := (ih hrest).mp h3
          exact ⟨List.mem_cons_of_mem _ h4, h5⟩
      · rintro ⟨hn, hne⟩
        rcases List.mem_cons.mp hn with rfl | h3
        · exact List.mem_cons_self _ _
        · exact List.mem_cons_of_mem _ ((ih hrest).mpr ⟨h3, hne⟩)

/-- Folding `disconnect` over distinct present ids removes exactly the
connections carrying those ids. -/
theorem disconnect_fold_spec (l : List Nat) : ∀ (g : Graph), WF g → l.Nodup →
    (∀ x ∈ l, ∃ c, c ∈ g.connections ∧ c.id = x) →
    WF (l.foldl (fun acc cid => (acc.disconnect cid).1) g) ∧
    (∀ c, c ∈ (l.foldl (fun acc cid => (acc.disconnect cid).1) g).connections ↔
      c ∈ g.connections ∧ c.id ∉ l) ∧
    (l.foldl (fun acc cid => (acc.disconnect cid).1) g).connections.length + l.length
      = g.connections.length ∧
    (l.foldl (fun acc cid => (acc.disconnect cid).1) g).nodes = g.nodes ∧
    (l.foldl (fun acc cid => (acc.disconnect cid).1) g).nodeLookup = g.nodeLookup ∧
    (l.foldl (fun acc cid => (acc.disconnect cid).1) g).nextConnId = g.nextConnId ∧
    (∀ x ∈ l, (l.foldl (fun acc cid => (acc.disconnect cid).1) g).hasConnection x
      = false) := by
  induction l with
  | nil =>
    intro g hwf _ _
    exact ⟨hwf, by simp, by simp, rfl, rfl, rfl, by simp⟩
  | cons x rest ih =>
    intro g hwf hnd hpres
    rcases List.nodup_cons.mp hnd with ⟨hxrest, hndrest⟩
    obtain ⟨c0, hc0mem, hc0id⟩ := hpres x (List.mem_cons_self _ _)
    rcases (mem_iff_getElem? _ _).mp hc0mem with ⟨i0, hi0⟩
    have hlk : assocLookup g.connLookup x = some i0 := by
      rw [← hc0id]
      exact hwf.idxLook i0 c0 hi0
    obtain ⟨_, hwf1, hlen1, hmem1, hhc1, hnodes1, hlookup1, hnext1⟩ :=
      disconnect_ok hwf x i0 hlk
    set g1 := (g.disconnect x).1 with hg1
    have hpres1 : ∀ y ∈ rest, ∃ c, c ∈ g1.connections ∧ c.id = y := by
      intro y hy
      obtain ⟨c, hcm, hci⟩ := hpres y (List.mem_cons_of_mem _ hy)
      refine ⟨c, (hmem1 c).mpr ⟨hcm, ?_⟩, hci⟩
      rw [hci]
      intro he
      exact hxrest (he ▸ hy)
    obtain ⟨hwfF, hmemF, hlenF, hnodesF, hlookupF, hnextF, hhcF⟩ :=
      ih g1 hwf1 hndrest hpres1
    have hfold : (x :: rest).foldl (fun acc cid => (acc.disconnect cid).1) g
        = rest.foldl (fun acc cid => (acc.disconnect cid).1) g1 := rfl
    rw [hfold]
    refine ⟨hwfF, ?_, ?_, by rw [hnodesF, hnodes1], by rw [hlookupF, hlookup1],
      by rw [hnextF, hnext1], ?_⟩
    · intro c
      rw [hmemF c, hmem1 c]
      simp only [List.mem_cons]
      tauto
    · simp only [List.length_cons]
      omega
    · intro y hy
      rcases List.mem_cons.mp hy with rfl | hy2
      · -- y = x: no connection with this id remains
        set gf := rest.foldl (fun acc cid => (acc.disconnect cid).1) g1 with hgf
        cases hb : gf.hasConnection y with
        | false => rfl
        | true =>
          obtain ⟨c, hcm, hci⟩ := (hwfF.hasConnection_iff y).mp hb
          have := (hmemF c).mp hcm
          have h3 := (hmem1 c).mp this.1
          exact absurd hci h3.2
      · exact hhcF y hy2

/-- Stored connections are pairwise distinct. -/
theorem WF.connectionsNodup {g : Graph} (hwf : WF g) : g.connections.Nodup := by
  rw [List.nodup_iff_injective_get]
  rintro ⟨i, hi⟩ ⟨j, hj⟩ he
  have h1 : g.connections[i]? = some (g.connections.get ⟨i, hi⟩) := by
    simp [List.getElem?_eq_getElem hi]
  have h2 : g.connections[j]? = some (g.connections.get ⟨j, hj⟩) := by
    simp [List.getElem?_eq_getElem hj]
  rw [he] at h1
  have l1 := hwf.idxLook i _ h1
  have l2 := hwf.idxLook j _ h2
  rw [l1] at l2
  injection l2 with hij
  exact Fin.ext hij

/-- `remove_node_connections` removes exactly the incident connections. -/
theorem removeNodeConnections_spec {g : Graph} (hwf : WF g) (n : Nat) :
    WF (g.removeNodeConnections n) ∧
    (∀ c, c ∈ (g.removeNodeConnections n).connections ↔
      c ∈ g.connections ∧ c.from_node ≠ n ∧ c.to_node ≠ n) ∧
    (g.removeNodeConnections n).connections.length + (g.incidentConnections n).length
      = g.connections.length ∧
    (g.removeNodeConnections n).nodes = g.nodes ∧
    (g.removeNodeConnections n).nodeLookup = g.nodeLookup ∧
    (g.removeNodeConnections n).nextConnId = g.nextConnId ∧
    (∀ c ∈ g.incidentConnections n,
      (g.removeNodeConnections n).hasConnection c.id = false) := by
  unfold Graph.removeNodeConnections
  set toRemove := uniqueAdj (sortNat (g.getConnectionsFrom n ++ g.getConnectionsTo n))
    with hTR
  have hmemTR : ∀ x, x ∈ toRemove ↔
      ∃ c, c ∈ g.connections ∧ c.id = x ∧ (c.from_node = n ∨ c.to_node = n) := by
    intro x
    rw [hTR, mem_uniqueAdj, mem_sortNat, List.mem_append]
    constructor
    · rintro (h | h)
      · rcases hwf.adjOutSound n x h with ⟨c, hc, hci, hcf⟩
        exact ⟨c, hc, hci, Or.inl hcf⟩
      · rcases hwf.adjInSound n x h with ⟨c, hc, hci, hcf⟩
        exact ⟨c, hc, hci, Or.inr hcf⟩
    · rintro ⟨c, hc, rfl, hor⟩
      have h2 := hwf.connInAdj c hc
      rcases hor with he | he
      · exact Or.inl (he ▸ h2.1)
      · exact Or.inr (he ▸ h2.2)
  have hndTR : toRemove.Nodup := nodup_uniqueAdj _ (sorted_sortNat _)
  have hpres : ∀ x ∈ toRemove, ∃ c, c ∈ g.connections ∧ c.id = x := by
    intro x hx
    rcases (hmemTR x).mp hx with ⟨c, hc, hci, _⟩
    exact ⟨c, hc, hci⟩
  obtain ⟨hwfF, hmemF, hlenF, hnodesF, hlookF, hnextF, hhcF⟩ :=
    disconnect_fold_spec toRemove g hwf hndTR hpres
  have hiff : ∀ c, c ∈ g.connections →
      (c.id ∈ toRemove ↔ (c.from_node = n ∨ c.to_node = n)) := by
    intro c hc
    rw [hmemTR]
    constructor
    · rintro ⟨c2, hc2, h2id, h2or⟩
      have h3 := hwf.id_inj c2 c hc2 hc h2id
      subst h3
      exact h2or
    · intro hor
      exact ⟨c, hc, rfl, hor⟩
  refine ⟨hwfF, ?_, ?_, hnodesF, hlookF, hnextF, ?_⟩
  · intro c
    rw [hmemF c]
    constructor
    · rintro ⟨hc, hninTR⟩
      refine ⟨hc, ?_, ?_⟩
      · intro he
        exact hninTR ((hiff c hc).mpr (Or.inl he))
      · intro he
        exact hninTR ((hiff c hc).mpr (Or.inr he))
    · rintro ⟨hc, h1, h2⟩
      refine ⟨hc, ?_⟩
      intro hin
      rcases (hiff c hc).mp hin with he | he
      · exact h1 he
      · exact h2 he
  · have hlen2 : toRemove.length = (g.incidentConnections n).length := by
      have hmap : ((g.incidentConnections n).map Connection.id).Nodup := by
        apply List.Nodup.map_on
        · intro x hx y hy hxy
          exact hwf.id_inj x y (List.mem_of_mem_filter hx) (List.mem_of_mem_filter hy) hxy
        · exact hwf.connectionsNodup.filter _
      have hmm : ∀ a, a ∈ toRemove ↔ a ∈ (g.incidentConnections n).map Connection.id := by
        intro a
        rw [hmemTR]
        constructor
        · rintro ⟨c, hc, rfl, hor⟩
          refine List.mem_map.mpr ⟨c, ?_, rfl⟩
          unfold Graph.incidentConnections
          apply List.mem_filter.mpr
          refine ⟨hc, ?_⟩
          rcases hor with h | h <;> simp [h]
        · intro hmem2
          rcases List.mem_map.mp hmem2 with ⟨c, hc, rfl⟩
          obtain ⟨hcm, hcp⟩ := List.mem_filter.mp hc
          refine ⟨c, hcm, rfl, ?_⟩
          simpa using hcp
      have hperm := (List.perm_ext_iff_of_nodup hndTR hmap).mpr hmm
      rw [hperm.length_eq, List.length_map]
    rw [← hlen2]
    exact hlenF
  · intro c hc
    obtain ⟨hcm, hcp⟩ := List.mem_filter.mp hc
    apply hhcF
    rw [hmemTR]
    refine ⟨c, hcm, rfl, ?_⟩
    simpa using hcp

/-- `remove_node` preserves the invariant. -/
theorem wf_removeNode {g : Graph} (hwf : WF g) (id : Nat) : WF (g.removeNode id).1 := by
  unfold Graph.removeNode
  cases hv : g.validateNodeExists id with
  | error e => exact hwf
  | ok u =>
    dsimp only
    obtain ⟨hwf1, hmem1, hlen1, hnodes1, hlook1, hnext1, hhc1⟩ :=
      removeNodeConnections_spec hwf id
    set g1 := g.removeNodeConnections id with hg1
    refine ⟨?_, ?_, ?_, ?_, ?_, ?_, ?_, ?_, ?_, ?_, ?_, ?_, ?_⟩
    · exact ((List.eraseP_sublist _).map Node.id).nodup hwf1.nodesNodup
    · exact (List.erase_sublist _ _).nodup hwf1.nodeLookupNodup
    · intro x
      constructor
      · intro hmem
        obtain ⟨hne, hx⟩ := (hwf1.nodeLookupNodup.mem_erase_iff).mp hmem
        rcases (hwf1.lookupNodes x).mp hx with ⟨node, hn, hni⟩
        refine ⟨node, ?_, hni⟩
        apply (mem_eraseP_nodes g1.nodes hwf1.nodesNodup id node).mpr
        refine ⟨hn, ?_⟩
        rw [hni]
        exact hne
      · rintro ⟨node, hn, hni⟩
        obtain ⟨hn2, hne⟩ := (mem_eraseP_nodes g1.nodes hwf1.nodesNodup id node).mp hn
        apply (hwf1.nodeLookupNodup.mem_erase_iff).mpr
        exact ⟨by rw [← hni]; exact hne, (hwf1.lookupNodes x).mpr ⟨node, hn2, hni⟩⟩
    · exact hwf1.lookIdx
    · exact hwf1.idxLook
    · exact hwf1.lookKeysNodup
    · exact hwf1.counterGt
    · exact keys_nodup_assocErase _ _ hwf1.adjOutKeysNodup
    · exact keys_nodup_assocErase _ _ hwf1.adjInKeysNodup
    · intro c hc
      obtain ⟨hcg, hcf, hct⟩ := (hmem1 c).mp hc
      have h1 := hwf1.connInAdj c hc
      unfold Graph.getConnectionsFrom Graph.getConnectionsTo at h1 ⊢
      rw [assocLookup_erase_ne _ _ _ hcf, assocLookup_erase_ne _ _ _ hct]
      exact h1
    · intro n2 cid hcid
      unfold Graph.getConnectionsFrom at hcid
      by_cases hn : n2 = id
      · subst hn
        rw [assocLookup_erase_self _ _ hwf1.adjOutKeysNodup] at hcid
        simp at hcid
      · rw [assocLookup_erase_ne _ _ _ hn] at hcid
        exact hwf1.adjOutSound n2 cid hcid
    · intro n2 cid hcid
      unfold Graph.getConnectionsTo at hcid
      by_cases hn : n2 = id
      · subst hn
        rw [assocLookup_erase_self _ _ hwf1.adjInKeysNodup] at hcid
        simp at hcid
      · rw [assocLookup_erase_ne _ _ _ hn] at hcid
        exact hwf1.adjInSound n2 cid hcid
    · intro c hc
      obtain ⟨hcg, hcf, hct⟩ := (hmem1 c).mp hc
      have hep := hwf1.endpointsExist c hc
      simp only [hasNode_iff_mem] at hep ⊢
      constructor
      · exact (hwf1.nodeLookupNodup.mem_erase_iff).mpr ⟨hcf, hep.1⟩
      · exact (hwf1.nodeLookupNodup.mem_erase_iff).mpr ⟨hct, hep.2⟩

/-- Every reachable graph state is well-formed. -/
theorem wf_of_reachable {g : Graph} (h : Reachable g) : WF g := by
  induction h with
  | empty => exact wf_empty
  | addNode g node _ ih => exact wf_addNode ih node
  | removeNode g id _ ih => exact wf_removeNode ih id
  | connect g a b c d _ ih => exact wf_connect ih a b c d
  | disconnect g id _ ih => exact wf_disconnect ih id
  | appendConn g c _ ih => exact wf_appendConnection ih c
  | clearAll g _ _ => exact wf_clearAll g

/-! ## Reachability helpers for the DFS entry points -/

/-- Inserting into the modelled set keeps previous members. -/
theorem mem_setInsert_of_mem {l : List Nat} {x y : Nat} (h : x ∈ l) :
    x ∈ setInsert l y := by
  unfold setInsert
  split
  · exact h
  · exact List.mem_append_left _ h

/-- The inserted element belongs to the modelled set. -/
theorem mem_setInsert_self (l : List Nat) (x : Nat) : x ∈ setInsert l x := by
  unfold setInsert
  split
  · next h => exact List.mem_of_elem_eq_true h
  · exact List.mem_append_right _ (List.mem_singleton.mpr rfl)

/-- A left fold whose step never drops members only grows the set. -/
theorem foldl_mem_preserve {β : Type} (step : List Nat → β → List Nat)
    (h : ∀ v c, ∀ x ∈ v, x ∈ step v c) :
    ∀ (l : List β) (v : List Nat), ∀ x ∈ v, x ∈ l.foldl step v := by
  intro l
  induction l with
  | nil => intro v x hx; simpa using hx
  | cons c rest ih => intro v x hx; exact ih _ x (h v c x hx)

/-- The reachability DFS only ever grows the visited set. -/
theorem dfsReachable_mono (g : Graph) : ∀ (fuel cur : Nat) (vis : List Nat),
    ∀ x ∈ vis, x ∈ dfsReachable g fuel cur vis := by
  intro fuel
  induction fuel with
  | zero => intro cur vis x hx; simpa [dfsReachable] using hx
  | succ fuel ih =>
    intro cur vis x hx
    unfold dfsReachable
    apply foldl_mem_preserve
    · intro v c y hy
      unfold dfsReachableStep
      cases hg : g.getConnection c with
      | none => exact hy
      | some conn =>
        dsimp only
        cases hv : v.contains conn.to_node with
        | true =>
          rw [if_neg (by simp [hv])]
          exact hy
        | false =>
          rw [if_pos (by simp [hv])]
          exact ih conn.to_node v y hy
    · exact mem_setInsert_of_mem hx

/-- One reachability step never drops visited members. -/
theorem dfsReachableStep_mono (g : Graph) (fuel : Nat) (v : List Nat) (c : Nat) :
    ∀ x ∈ v, x ∈ dfsReachableStep g (dfsReachable g fuel) v c := by
  intro x hx
  unfold dfsReachableStep
  cases hg : g.getConnection c with
  | none => exact hx
  | some conn =>
    dsimp only
    cases hv : v.contains conn.to_node with
    | true =>
      rw [if_neg (by simp [hv])]
      exact hx
    | false =>
      rw [if_pos (by simp [hv])]
      exact dfsReachable_mono g fuel conn.to_node v x hx

/-- C10: `has_path(n, n)` returns true for every node id, present or
not, and `find_reachable_nodes(s)` always contains `s` itself. -/
theorem C10_reflexive_reachability (g : Graph) (n s : Nat) :
    g.hasPath n n = true ∧ s ∈ g.findReachableNodes s := by
  constructor
  · unfold Graph.hasPath
    simp
  · unfold Graph.findReachableNodes Graph.dfsFuel
    unfold dfsReachable
    apply foldl_mem_preserve _ (fun v c => dfsReachableStep_mono g _ v c)
    exact mem_setInsert_self [] s

/-- C7 counterexample: type-name normalization is not idempotent.  The
input `a<<>>` normalizes to `a<>` (an empty argument list serialized
inside angle brackets), but normalizing the already-normalized `a<>`
strips the empty bracket pair and yields `a`. -/
theorem C7_counterexample :
    normalize_type_name (normalize_type_name "a<<>>") ≠ normalize_type_name "a<<>>" ∧
    normalize_type_name "a<<>>" = "a<>" ∧ normalize_type_name "a<>" = "a" := by
  refine ⟨?_, by decide, by decide⟩
  decide

/-- C7 (amended): the two semantically equal descriptor pairs of the
spec normalize to identical strings, and normalization is idempotent on
these examples, though not on arbitrary inputs. -/
theorem C7_normalization_examples :
    normalize_type_name "Vector<int>" = normalize_type_name "vector< int >" ∧
    normalize_type_name "Map<Key=string,Value=int>"
      = normalize_type_name "map<value=int,key=string>" ∧
    normalize_type_name (normalize_type_name "Vector<int>")
      = normalize_type_name "Vector<int>" ∧
    normalize_type_name (normalize_type_name "Map<Key=string,Value=int>")
      = normalize_type_name "Map<Key=string,Value=int>" := by
  refine ⟨by decide, by decide, by decide, by decide⟩

/-- C1 counterexample: on a single PrintString node, connecting its
`in_exec` input (port 3) to its `value` input (port 5) — two ports on
the same node — fails with the port-incompatibility code 300, not the
self-reference code 304: `validate_connection` checks compatibility
before the self-loop rule. -/
theorem C1_counterexample :
    (graphPrint.connect 3 3 3 5).2.errCode = 300 ∧
    ¬ (graphPrint.connect 3 3 3 5).2.errCode = 304 := by
  refine ⟨by decide, by decide⟩

/-- C1 (amended): connecting two ports that reside on the same node
always fails, with the self-reference code 304 when `can_connect`
accepts the pair and with the incompatibility code 300 otherwise. -/
theorem C1_same_node_connect (g : Graph) (n fp tp : Nat) (node : Node) (pf pt : Port)
    (hn : g.getNode n = some node) (hf : node.findPort fp = some pf)
    (ht : node.findPort tp = some pt) :
    ∃ e, (g.connect n fp n tp).2 = .error e ∧
      e.code = (if pf.canConnectTo pt then (304 : Int) else 300) := by
  have hcontains : g.nodeLookup.contains n = true := by
    unfold Graph.getNode at hn
    by_cases h : g.nodeLookup.contains n = true
    · exact h
    · rw [if_neg h] at hn
      cases hn
  have hmem : n ∈ g.nodeLookup := List.mem_of_elem_eq_true hcontains
  by_cases hcc : pf.canConnectTo pt = true
  · have hval : g.validateConnection n fp n tp = .error ⟨"Self-loops are not allowed", 304⟩ := by
      unfold Graph.validateConnection Graph.validateNodeExists Graph.validatePortExists
        Result.andThen
      simp [Graph.hasNode, hcontains, hmem, hn, hf, ht, hcc]
    refine ⟨⟨"Self-loops are not allowed", 304⟩, ?_, by simp [hcc]⟩
    unfold Graph.connect
    rw [hval]
  · have hval : g.validateConnection n fp n tp = .error
        ⟨"Ports are not compatible: " ++ node.name ++ " (" ++ pf.name ++ ") -> " ++
          node.name ++ " (" ++ pt.name ++ ")", 300⟩ := by
      unfold Graph.validateConnection Graph.validateNodeExists Graph.validatePortExists
        Result.andThen
      simp [Graph.hasNode, hcontains, hmem, hn, hf, ht, hcc]
    refine ⟨⟨"Ports are not compatible: " ++ node.name ++ " (" ++ pf.name ++ ") -> " ++
      node.name ++ " (" ++ pt.name ++ ")", 300⟩, ?_, by simp [hcc]⟩
    unfold Graph.connect
    rw [hval]

/-- C1 witness: the amended statement at the concrete single-node graph. -/
theorem C1_same_node_connect_witness :
    ∃ e, (graphPrint.connect 3 3 3 5).2 = .error e ∧
      e.code = (if (Port.mk 3 .Input .Execution "in_exec" "").canConnectTo
        (Port.mk 5 .Input .StringView "value" "") then (304 : Int) else 300) :=
  C1_same_node_connect graphPrint 3 3 5
    (NodeFactory.createWithId 3 NodeTypes.PrintString "Print #3" 3)
    ⟨3, .Input, .Execution, "in_exec", ""⟩ ⟨5, .Input, .StringView, "value", ""⟩
    (by decide) (by decide) (by decide)

/-- C2 counterexample: `graphSE1` already stores the connection
(1,1,2,2); a second `connect` with the identical endpoint tuple
succeeds (no DuplicateConnection error) and stores a second parallel
connection. -/
theorem C2_counterexample :
    (graphSE1.connect 1 1 2 2).2.isOk = true ∧
    (graphSE1.connect 1 1 2 2).1.connectionCount = 2 := by
  refine ⟨by decide, by decide⟩

/-- `validate_connection` reads only node storage and the node lookup. -/
theorem validateConnection_congr (g g2 : Graph) (a b c d : Nat)
    (h1 : g2.nodes = g.nodes) (h2 : g2.nodeLookup = g.nodeLookup) :
    g2.validateConnection a b c d = g.validateConnection a b c d := by
  unfold Graph.validateConnection Graph.validateNodeExists Graph.validatePortExists
    Result.andThen Graph.getNode Graph.hasNode
  rw [h1, h2]

/-- C2 (amended): if `connect` once succeeded, an immediate second call
with the identical tuple succeeds as well, adding a second parallel
connection (there is no duplicate-edge check). -/
theorem C2_duplicate_connect (g : Graph) (a b c d : Nat) (cid : Nat)
    (h : (g.connect a b c d).2 = .ok cid) :
    ∃ cid2, ((g.connect a b c d).1.connect a b c d).2 = .ok cid2 ∧
      ((g.connect a b c d).1.connect a b c d).1.connectionCount
        = (g.connect a b c d).1.connectionCount + 1 := by
  have hval : g.validateConnection a b c d = .ok () := by
    cases hv : g.validateConnection a b c d with
    | ok u => rfl
    | error e =>
      unfold Graph.connect at h
      rw [hv] at h
      cases h
  set g1 := (g.connect a b c d).1 with hg1
  have hnodes : g1.nodes = g.nodes := by
    rw [hg1]
    unfold Graph.connect
    rw [hval]
  have hlook : g1.nodeLookup = g.nodeLookup := by
    rw [hg1]
    unfold Graph.connect
    rw [hval]
  have hval1 : g1.validateConnection a b c d = .ok () := by
    rw [validateConnection_congr g g1 a b c d hnodes hlook]
    exact hval
  refine ⟨g1.nextConnId, ?_, ?_⟩
  · unfold Graph.connect
    rw [hval1]
  · unfold Graph.connect
    rw [hval1]
    unfold Graph.connectionCount
    simp

/-- C2 witness: the amended statement at the Start→End graph. -/
theorem C2_duplicate_connect_witness :
    ∃ cid2, ((graphSE.connect 1 1 2 2).1.connect 1 1 2 2).2 = .ok cid2 ∧
      ((graphSE.connect 1 1 2 2).1.connect 1 1 2 2).1.connectionCount
        = (graphSE.connect 1 1 2 2).1.connectionCount + 1 :=
  C2_duplicate_connect graphSE 1 1 2 2 1 (by decide)

/-- C9: a document whose only connection references the non-existent
node 999999 is rejected, but with the graph-layer NodeNotFound code 301
and a message that does not name the connection index — not with the
serializer InvalidConnection code 605 the tests require: the
deserialization loop returns `append_connection` errors unchanged. -/
theorem C9_bad_nodeId_behavior :
    ∃ e, deserializeConnections graphC9 [⟨1, "Execution", 999999, 1, 3, 3⟩] = .error e ∧
      e.message = "Node 999999 does not exist" ∧
      e.code = 301 ∧ e.code ≠ 605 ∧
      containsSub e.message.data "connections[".data = false := by
  refine ⟨⟨"Node 999999 does not exist", 301⟩, by decide, rfl, rfl, by decide, by decide⟩

/-! ## C3: the adjacency invariant -/

/-- C3: in every graph state reachable through the public mutation API,
every stored connection is listed in the outgoing adjacency of its
source node and the incoming adjacency of its target node, and
conversely every listed id resolves to a stored connection whose
corresponding endpoint is the indexing node. -/
theorem C3_adjacency_invariant (g : Graph) (h : Reachable g) :
    (∀ c ∈ g.connections,
      c.id ∈ g.getConnectionsFrom c.from_node ∧ c.id ∈ g.getConnectionsTo c.to_node) ∧
    (∀ n cid, cid ∈ g.getConnectionsFrom n →
      ∃ c, c ∈ g.connections ∧ c.id = cid ∧ c.from_node = n) ∧
    (∀ n cid, cid ∈ g.getConnectionsTo n →
      ∃ c, c ∈ g.connections ∧ c.id = cid ∧ c.to_node = n) := by
  have hwf := wf_of_reachable h
  exact ⟨hwf.connInAdj, hwf.adjOutSound, hwf.adjInSound⟩

/-- C3 witness: the invariant at the concrete Start→End graph. -/
theorem C3_adjacency_invariant_witness :
    (∀ c ∈ graphSE1.connections,
      c.id ∈ graphSE1.getConnectionsFrom c.from_node ∧
      c.id ∈ graphSE1.getConnectionsTo c.to_node) ∧
    (∀ n cid, cid ∈ graphSE1.getConnectionsFrom n →
      ∃ c, c ∈ graphSE1.connections ∧ c.id = cid ∧ c.from_node = n) ∧
    (∀ n cid, cid ∈ graphSE1.getConnectionsTo n →
      ∃ c, c ∈ graphSE1.connections ∧ c.id = cid ∧ c.to_node = n) :=
  C3_adjacency_invariant graphSE1
    (Reachable.connect graphSE 1 1 2 2
      (Reachable.addNode _ endNode2 (Reachable.addNode _ startNode1 Reachable.empty)))

/-! ## C5: `remove_node` purges incident connections -/

/-- C5: removing a present node succeeds, afterwards no stored
connection has it as either endpoint, the connection count shrinks by
exactly the number of incident connections, and every previously
incident connection id reports `has_connection == false`. -/
theorem C5_removeNode_purges (g : Graph) (n : Nat) (h : Reachable g)
    (hn : g.hasNode n = true) :
    (g.removeNode n).2 = .ok () ∧
    (∀ c ∈ (g.removeNode n).1.connections, c.from_node ≠ n ∧ c.to_node ≠ n) ∧
    (g.removeNode n).1.connectionCount + (g.incidentConnections n).length
      = g.connectionCount ∧
    (∀ c ∈ g.incidentConnections n, (g.removeNode n).1.hasConnection c.id = false) := by
  have hwf := wf_of_reachable h
  obtain ⟨hwf1, hmem1, hlen1, hnodes1, hlook1, hnext1, hhc1⟩ :=
    removeNodeConnections_spec hwf n
  have hv : g.validateNodeExists n = .ok () := by
    unfold Graph.validateNodeExists
    rw [if_neg (by simp [hn])]
  have hrn : g.removeNode n =
      ({ g.removeNodeConnections n with
          nodeLookup := (g.removeNodeConnections n).nodeLookup.erase n,
          adjOut := assocErase (g.removeNodeConnections n).adjOut n,
          adjIn := assocErase (g.removeNodeConnections n).adjIn n,
          nodes := (g.removeNodeConnections n).nodes.eraseP (fun x => x.id = n) },
       .ok ()) := by
    unfold Graph.removeNode
    rw [hv]
  refine ⟨by rw [hrn], ?_, ?_, ?_⟩
  · intro c hc
    rw [hrn] at hc
    have hc2 : c ∈ (g.removeNodeConnections n).connections := hc
    exact ⟨((hmem1 c).mp hc2).2.1, ((hmem1 c).mp hc2).2.2⟩
  · have he : (g.removeNode n).1.connectionCount
        = (g.removeNodeConnections n).connections.length := by
      rw [hrn]
      rfl
    rw [he]
    exact hlen1
  · intro c hc
    have he : (g.removeNode n).1.hasConnection c.id
        = (g.removeNodeConnections n).hasConnection c.id := by
      rw [hrn]
      rfl
    rw [he]
    exact hhc1 c hc

/-- C5 witness: removing the PrintString node of the connected
Start→Print→End graph (two incident connections). -/
theorem C5_removeNode_purges_witness :
    (graphC8.removeNode 3).2 = .ok () ∧
    (∀ c ∈ (graphC8.removeNode 3).1.connections, c.from_node ≠ 3 ∧ c.to_node ≠ 3) ∧
    (graphC8.removeNode 3).1.connectionCount + (graphC8.incidentConnections 3).length
      = graphC8.connectionCount ∧
    (∀ c ∈ graphC8.incidentConnections 3,
      (graphC8.removeNode 3).1.hasConnection c.id = false) :=
  C5_removeNode_purges graphC8 3
    (Reachable.connect _ 3 4 2 2 (Reachable.connect _ 1 1 3 3
      (Reachable.addNode _ endNode2 (Reachable.addNode _ printNode3
        (Reachable.addNode _ startNode1 Reachable.empty)))))
    (by decide)

/-! ## C6: which start-node shapes `validate` flags -/

/-- Error-list decomposition of a `ValidationResult` fold: every stage
only appends, and each appended code satisfies the predicate. -/
theorem foldl_errors_ext {β : Type} (step : ValidationResult → β → ValidationResult)
    (P : Error → Prop)
    (h : ∀ acc b, ∃ d, (step acc b).errors = acc.errors ++ d ∧ ∀ e ∈ d, P e) :
    ∀ (l : List β) (acc : ValidationResult), ∃ d,
      (l.foldl step acc).errors = acc.errors ++ d ∧ ∀ e ∈ d, P e := by
  intro l
  induction l with
  | nil =>
    intro acc
    exact ⟨[], by simp, by simp⟩
  | cons b rest ih =>
    intro acc
    obtain ⟨d1, hd1, hp1⟩ := h acc b
    obtain ⟨d2, hd2, hp2⟩ := ih (step acc b)
    refine ⟨d1 ++ d2, by simp [hd2, hd1], ?_⟩
    intro e he
    rcases List.mem_append.mp he with h1 | h2
    · exact hp1 e h1
    · exact hp2 e h2

/-- `validate_node_exists` only ever reports code 301. -/
theorem validateNodeExists_code (g : Graph) (x : Nat) (e : Error)
    (h : g.validateNodeExists x = .error e) : e.code = 301 := by
  unfold Graph.validateNodeExists at h
  split_ifs at h
  cases h
  rfl

/-- `validate_port_exists` reports only codes 301 and 302. -/
theorem validatePortExists_ne_500 (g : Graph) (x p : Nat) (e : Error)
    (h : g.validatePortExists x p = .error e) : e.code ≠ 500 := by
  unfold Graph.validatePortExists at h
  split at h
  · cases h
    exact (by decide : (301 : Int) ≠ 500)
  · split at h
    · cases h
      exact (by decide : (302 : Int) ≠ 500)
    · exact (Result.noConfusion h)

/-- `validate_connection` reports only codes 300, 301, 302, 304. -/
theorem validateConnection_ne_500 (g : Graph) (a b c d : Nat) (e : Error)
    (h : g.validateConnection a b c d = .error e) : e.code ≠ 500 := by
  unfold Graph.validateConnection Result.andThen at h
  cases h1 : g.validateNodeExists a with
  | error e1 =>
    rw [h1] at h
    dsimp only at h
    cases h
    rw [validateNodeExists_code g a e h1]
    decide
  | ok u1 =>
    rw [h1] at h
    dsimp only at h
    cases h2 : g.validateNodeExists c with
    | error e2 =>
      rw [h2] at h
      dsimp only at h
      cases h
      rw [validateNodeExists_code g c e h2]
      decide
    | ok u2 =>
      rw [h2] at h
      dsimp only at h
      cases h3 : g.validatePortExists a b with
      | error e3 =>
        rw [h3] at h
        dsimp only at h
        cases h
        exact validatePortExists_ne_500 g a b e h3
      | ok u3 =>
        rw [h3] at h
        dsimp only at h
        cases h4 : g.validatePortExists c d with
        | error e4 =>
          rw [h4] at h
          dsimp only at h
          cases h
          exact validatePortExists_ne_500 g c d e h4
        | ok u4 =>
          rw [h4] at h
          dsimp only at h
          cases hga : g.getNode a with
          | none =>
            rw [hga] at h
            exact (Result.noConfusion h)
          | some fn =>
            rw [hga] at h
            cases hgc : g.getNode c with
            | none =>
              rw [hgc] at h
              exact (Result.noConfusion h)
            | some tn =>
              rw [hgc] at h
              dsimp only at h
              cases hfa : fn.findPort b with
              | none =>
                rw [hfa] at h
                cases hfb : tn.findPort d with
                | none =>
                  rw [hfb] at h
                  exact (Result.noConfusion h)
                | some tp =>
                  rw [hfb] at h
                  exact (Result.noConfusion h)
              | some fp =>
                rw [hfa] at h
                cases hfb : tn.findPort d with
                | none =>
                  rw [hfb] at h
                  exact (Result.noConfusion h)
                | some tp =>
                  rw [hfb] at h
                  dsimp only at h
                  by_cases hcc : (!fp.canConnectTo tp) = true
                  · rw [if_pos hcc] at h
                    cases h
                    exact (by decide : (300 : Int) ≠ 500)
                  · rw [if_neg hcc] at h
                    by_cases hself : a = c
                    · rw [if_pos hself] at h
                      cases h
                      exact (by decide : (304 : Int) ≠ 500)
                    · rw [if_neg hself] at h
                      exact (Result.noConfusion h)

/-- `Node::validate` reports only codes 100–107. -/
theorem nodeValidate_ne_500 (n : Node) (e : Error) (h : n.validate = .error e) :
    e.code ≠ 500 := by
  unfold Node.validate at h
  split_ifs at h <;> cases h <;> decide

/-- Check 2 touches only warnings. -/
theorem stage2_errors (g : Graph) (r : ValidationResult) :
    ∃ d, (validateStage2 g r).errors = r.errors ++ d ∧ ∀ e ∈ d, e.code ≠ 500 := by
  refine ⟨[], ?_, by simp⟩
  unfold validateStage2
  split <;> simp

/-- Check 3 appends only per-node validation codes. -/
theorem stage3_errors (g : Graph) (r : ValidationResult) :
    ∃ d, (validateStage3 g r).errors = r.errors ++ d ∧ ∀ e ∈ d, e.code ≠ 500 := by
  unfold validateStage3
  apply foldl_errors_ext
  intro acc node
  cases hv : node.validate with
  | error e2 =>
    refine ⟨[e2], by simp, ?_⟩
    intro e he
    rw [List.mem_singleton.mp he]
    exact nodeValidate_ne_500 node e2 hv
  | ok u => exact ⟨[], by simp, by simp⟩

/-- Check 4 appends only the cycle code 400. -/
theorem stage4_errors (g : Graph) (r : ValidationResult) :
    ∃ d, (validateStage4 g r).errors = r.errors ++ d ∧ ∀ e ∈ d, e.code ≠ 500 := by
  unfold validateStage4
  split
  · exact ⟨[⟨"Graph contains cycles in execution flow", 400⟩], by simp, by simp⟩
  · exact ⟨[], by simp, by simp⟩

/-- Check 5 appends only the no-connections code 501. -/
theorem stage5_errors (g : Graph) (start : Option Node) (r : ValidationResult) :
    ∃ d, (validateStage5 g start r).errors = r.errors ++ d ∧ ∀ e ∈ d, e.code ≠ 500 := by
  unfold validateStage5
  split
  · exact ⟨[⟨"Graph has no execution flow connections", 501⟩], by simp, by simp⟩
  · exact ⟨[], by simp, by simp⟩

/-- Check 6 appends only the unreachable-node code 503. -/
theorem stage6_errors (g : Graph) (start : Option Node) (r : ValidationResult) :
    ∃ d, (validateStage6 g start r).errors = r.errors ++ d ∧ ∀ e ∈ d, e.code ≠ 500 := by
  unfold validateStage6
  cases start with
  | none => exact ⟨[], by simp, by simp⟩
  | some st =>
    dsimp only
    split
    · apply foldl_errors_ext
      intro acc node
      split
      · exact ⟨[⟨"Node \x27" ++ node.name ++ "\x27 is not reachable from Start", 503⟩],
          by simp, by simp⟩
      · exact ⟨[], by simp, by simp⟩
    · exact ⟨[], by simp, by simp⟩

/-- Check 7 appends only connection-validation codes. -/
theorem stage7_errors (g : Graph) (r : ValidationResult) :
    ∃ d, (validateStage7 g r).errors = r.errors ++ d ∧ ∀ e ∈ d, e.code ≠ 500 := by
  unfold validateStage7
  apply foldl_errors_ext
  intro acc conn
  cases hv : g.validateConnection conn.from_node conn.from_port conn.to_node conn.to_port with
  | error e2 =>
    refine ⟨[e2], by simp, ?_⟩
    intro e he
    rw [List.mem_singleton.mp he]
    exact validateConnection_ne_500 g _ _ _ _ e2 hv
  | ok u => exact ⟨[], by simp, by simp⟩

/-- Checks 2–7 only append errors, and never the code 500. -/
theorem stages27_errors (g : Graph) (start : Option Node) (r : ValidationResult) :
    ∃ d, (validateStage7 g (validateStage6 g start (validateStage5 g start
        (validateStage4 g (validateStage3 g (validateStage2 g r)))))).errors
      = r.errors ++ d ∧ ∀ e ∈ d, e.code ≠ 500 := by
  obtain ⟨d2, h2, p2⟩ := stage2_errors g r
  obtain ⟨d3, h3, p3⟩ := stage3_errors g (validateStage2 g r)
  obtain ⟨d4, h4, p4⟩ := stage4_errors g (validateStage3 g (validateStage2 g r))
  obtain ⟨d5, h5, p5⟩ := stage5_errors g start
    (validateStage4 g (validateStage3 g (validateStage2 g r)))
  obtain ⟨d6, h6, p6⟩ := stage6_errors g start
    (validateStage5 g start (validateStage4 g (validateStage3 g (validateStage2 g r))))
  obtain ⟨d7, h7, p7⟩ := stage7_errors g
    (validateStage6 g start (validateStage5 g start
      (validateStage4 g (validateStage3 g (validateStage2 g r)))))
  refine ⟨d2 ++ d3 ++ d4 ++ d5 ++ d6 ++ d7, ?_, ?_⟩
  · rw [h7, h6, h5, h4, h3, h2]
    simp [List.append_assoc]
  · intro e he
    simp only [List.mem_append] at he
    rcases he with ((((he | he) | he) | he) | he) | he
    · exact p2 e he
    · exact p3 e he
    · exact p4 e he
    · exact p5 e he
    · exact p6 e he
    · exact p7 e he

/-- C6 counterexample: a graph with two Start nodes passes `validate`
without any missing-Start error (code 500) in the aggregated error
list; only the zero-Start case is flagged. -/
theorem C6_counterexample :
    (graphTwoStarts.nodes.filter (fun n => n.nodeType = NodeTypes.Start)).length = 2 ∧
    ((graphTwoStarts.validate).errors.filter (fun e => e.code = 500)).length = 0 := by
  refine ⟨by decide, by decide⟩

/-- C6 (amended): the aggregated error list of `validate` contains the
missing-Start error (code 500) exactly when `find_start_node` finds no
Start node; graphs with more than one Start node are not flagged. -/
theorem C6_start_error_iff (g : Graph) :
    (∃ e ∈ (g.validate).errors, e.code = 500) ↔ g.findStartNode = none := by
  constructor
  · intro he
    cases hs : g.findStartNode with
    | none => rfl
    | some st =>
      obtain ⟨e, hmem, hcode⟩ := he
      unfold Graph.validate at hmem
      rw [hs] at hmem
      dsimp only [Option.isNone] at hmem
      rw [if_neg (by simp)] at hmem
      obtain ⟨d, hd, hp⟩ := stages27_errors g (some st) ⟨true, [], []⟩
      rw [hd] at hmem
      exact absurd hcode (hp e (by simpa using hmem))
  · intro hs
    refine ⟨⟨"Graph must have exactly one Start node", 500⟩, ?_, rfl⟩
    unfold Graph.validate
    rw [hs]
    dsimp only [Option.isNone]
    rw [if_pos rfl]
    obtain ⟨d, hd, hp⟩ := stages27_errors g none
      ⟨false, [] ++ [⟨"Graph must have exactly one Start node", 500⟩], []⟩
    rw [hd]
    simp

/-! ## C8: the unconnected PrintString input -/

/-- C8 counterexample: in the Start→PrintString→End graph with the
`value` input unconnected, `validate` succeeds, but the generated print
statement carries the `/* unknown type */` placeholder — the
StringView-typed input has no default in `get_default_value` — and the
empty-string default appears nowhere in the output. -/
theorem C8_counterexample :
    (graphC8.validate).is_valid = true ∧
    ∃ code, CppCodeGenerator.generate graphC8 = .ok code ∧
      containsSub code.data "/* unknown type */".data = true ∧
      containsSub code.data "std::string(\"\")".data = false :=
  ⟨by decide,
   "// Generated by MultiCode C++ Code Generator\n#include <iostream>\n#include <string>\n\nint main() \x7b\n    std::cout << /* unknown type */ << std::endl;\n    return 0;\n\x7d\n",
   by decide, by decide, by decide⟩

/-- C8 (amended): `validate` accepts the scenario-A graph, and code
generation succeeds with the `/* unknown type */` placeholder standing
in for the unconnected StringView input of the print statement. -/
theorem C8_unknown_type_placeholder :
    (graphC8.validate).is_valid = true ∧
    CppCodeGenerator.generate graphC8 = .ok
      "// Generated by MultiCode C++ Code Generator\n#include <iostream>\n#include <string>\n\nint main() \x7b\n    std::cout << /* unknown type */ << std::endl;\n    return 0;\n\x7d\n" :=
  ⟨by decide, by decide⟩

/-! ## C4: cycle detection and topological order

The DFS carries fuel, but every conclusion below is conditional on the
run returning `false` (no cycle): running out of fuel yields `true`,
and a `true` anywhere propagates to the top, so a `false` outcome
certifies that no call ever hit the fuel bound. -/

/-- The step function reduced on a `false` flag. -/
theorem topoDfsStep_false (g : Graph) (dfs : Nat → DfsState → Bool × DfsState)
    (s : DfsState) (c : Nat) :
    topoDfsStep g dfs (false, s) c =
      match g.getConnection c with
      | none => (false, s)
      | some conn =>
        if conn.type ≠ ConnectionType.Execution then (false, s)
        else if s.inStack.contains conn.to_node then (true, s)
        else if !s.visited.contains conn.to_node then dfs conn.to_node s
        else (false, s) := by
  rfl

/-- The step is the identity once the cycle flag is set. -/
theorem topoDfsStep_true (g : Graph) (dfs : Nat → DfsState → Bool × DfsState)
    (s : DfsState) (c : Nat) :
    topoDfsStep g dfs (true, s) c = (true, s) := by
  rfl

theorem topoDfsStep_none (g : Graph) (dfs : Nat → DfsState → Bool × DfsState)
    (s : DfsState) (c : Nat) (hg : g.getConnection c = none) :
    topoDfsStep g dfs (false, s) c = (false, s) := by
  rw [topoDfsStep_false, hg]

theorem topoDfsStep_skipType (g : Graph) (dfs : Nat → DfsState → Bool × DfsState)
    (s : DfsState) (c : Nat) (conn : Connection) (hg : g.getConnection c = some conn)
    (ht : conn.type ≠ ConnectionType.Execution) :
    topoDfsStep g dfs (false, s) c = (false, s) := by
  rw [topoDfsStep_false, hg]
  simp [ht]

theorem topoDfsStep_stack (g : Graph) (dfs : Nat → DfsState → Bool × DfsState)
    (s : DfsState) (c : Nat) (conn : Connection) (hg : g.getConnection c = some conn)
    (ht : conn.type = ConnectionType.Execution)
    (hstk : s.inStack.contains conn.to_node = true) :
    topoDfsStep g dfs (false, s) c = (true, s) := by
  rw [topoDfsStep_false, hg]
  simp [ht, List.mem_of_elem_eq_true hstk]

theorem topoDfsStep_dfs (g : Graph) (dfs : Nat → DfsState → Bool × DfsState)
    (s : DfsState) (c : Nat) (conn : Connection) (hg : g.getConnection c = some conn)
    (ht : conn.type = ConnectionType.Execution)
    (hstk : s.inStack.contains conn.to_node = false)
    (hvis : s.visited.contains conn.to_node = false) :
    topoDfsStep g dfs (false, s) c = dfs conn.to_node s := by
  rw [topoDfsStep_false, hg]
  have hm1 : conn.to_node ∉ s.inStack := by
    intro hx
    have hc : s.inStack.contains conn.to_node = true := List.elem_eq_true_of_mem hx
    rw [hc] at hstk
    cases hstk
  have hm2 : conn.to_node ∉ s.visited := by
    intro hx
    have hc : s.visited.contains conn.to_node = true := List.elem_eq_true_of_mem hx
    rw [hc] at hvis
    cases hvis
  simp [ht, hm1, hm2]

theorem topoDfsStep_visited (g : Graph) (dfs : Nat → DfsState → Bool × DfsState)
    (s : DfsState) (c : Nat) (conn : Connection) (hg : g.getConnection c = some conn)
    (ht : conn.type = ConnectionType.Execution)
    (hstk : s.inStack.contains conn.to_node = false)
    (hvis : s.visited.contains conn.to_node = true) :
    topoDfsStep g dfs (false, s) c = (false, s) := by
  rw [topoDfsStep_false, hg]
  have hm1 : conn.to_node ∉ s.inStack := by
    intro hx
    have hc : s.inStack.contains conn.to_node = true := List.elem_eq_true_of_mem hx
    rw [hc] at hstk
    cases hstk
  simp [ht, hm1, List.mem_of_elem_eq_true hvis]

/-- Once the flag is `true` the loop leaves the accumulator unchanged. -/
theorem foldl_fix_true (g : Graph) (dfs : Nat → DfsState → Bool × DfsState) :
    ∀ (cs : List Nat) (s : DfsState),
      cs.foldl (topoDfsStep g dfs) (true, s) = (true, s) := by
  intro cs
  induction cs with
  | nil => intro s; rfl
  | cons c rest ih =>
    intro s
    rw [List.foldl_cons, topoDfsStep_true]
    exact ih s

/-- `topoDfs` unfolded at positive fuel. -/
theorem topoDfs_succ (g : Graph) (fuel v : Nat) (s : DfsState) :
    topoDfs g (fuel + 1) v s =
      match (g.getConnectionsFrom v).foldl (topoDfsStep g (topoDfs g fuel))
          (false, ⟨setInsert s.visited v, setInsert s.inStack v, s.result⟩) with
      | (true, s2) => (true, s2)
      | (false, s2) =>
        (false, ⟨s2.visited, s2.inStack.erase v, s2.result ++ [v]⟩) := by
  rfl

theorem shiftRes_comp (r d : List Nat) (p : Bool × DfsState) :
    shiftRes r (shiftRes d p) = shiftRes (r ++ d) p := by
  simp [shiftRes]

/-- The result list is write-only: a run started with result `r` equals
the `[]`-run with `r` prepended (flag, visited and stack agree). -/
theorem topoDfs_shift (g : Graph) : ∀ fuel : Nat,
    (∀ (v : Nat) (vis stk r : List Nat), topoDfs g fuel v ⟨vis, stk, r⟩
      = shiftRes r (topoDfs g fuel v ⟨vis, stk, []⟩)) ∧
    (∀ (cs : List Nat) (b0 : Bool) (vis stk r : List Nat),
      cs.foldl (topoDfsStep g (topoDfs g fuel)) (b0, ⟨vis, stk, r⟩)
        = shiftRes r (cs.foldl (topoDfsStep g (topoDfs g fuel)) (b0, ⟨vis, stk, []⟩))) := by
  have hloop : ∀ fuel : Nat,
      (∀ (v : Nat) (vis stk r : List Nat), topoDfs g fuel v ⟨vis, stk, r⟩
        = shiftRes r (topoDfs g fuel v ⟨vis, stk, []⟩)) →
      (∀ (cs : List Nat) (b0 : Bool) (vis stk r : List Nat),
        cs.foldl (topoDfsStep g (topoDfs g fuel)) (b0, ⟨vis, stk, r⟩)
          = shiftRes r (cs.foldl (topoDfsStep g (topoDfs g fuel)) (b0, ⟨vis, stk, []⟩))) := by
    intro fuel hP cs
    induction cs with
    | nil =>
      intro b0 vis stk r
      simp [shiftRes]
    | cons c rest ih =>
      intro b0 vis stk r
      rw [List.foldl_cons, List.foldl_cons]
      cases b0 with
      | true =>
        rw [topoDfsStep_true, topoDfsStep_true]
        exact ih true vis stk r
      | false =>
        cases hg : g.getConnection c with
        | none =>
          rw [topoDfsStep_none g _ _ c hg, topoDfsStep_none g _ _ c hg]
          exact ih false vis stk r
        | some conn =>
          by_cases ht : conn.type = ConnectionType.Execution
          · cases hstk : (stk : List Nat).contains conn.to_node with
            | true =>
              rw [topoDfsStep_stack g _ _ c conn hg ht hstk,
                topoDfsStep_stack g _ _ c conn hg ht hstk]
              exact ih true vis stk r
            | false =>
              cases hvis : (vis : List Nat).contains conn.to_node with
              | true =>
                rw [topoDfsStep_visited g _ _ c conn hg ht hstk hvis,
                  topoDfsStep_visited g _ _ c conn hg ht hstk hvis]
                exact ih false vis stk r
              | false =>
                rw [topoDfsStep_dfs g _ _ c conn hg ht hstk hvis,
                  topoDfsStep_dfs g _ _ c conn hg ht hstk hvis]
                rw [hP conn.to_node vis stk r]
                cases hd : topoDfs g fuel conn.to_node ⟨vis, stk, []⟩ with
                | mk bd sd =>
                  show List.foldl _ (bd, ⟨sd.visited, sd.inStack, r ++ sd.result⟩) rest
                    = shiftRes r (List.foldl _ (bd, sd) rest)
                  have hsd : sd = ⟨sd.visited, sd.inStack, sd.result⟩ := rfl
                  rw [ih bd sd.visited sd.inStack (r ++ sd.result)]
                  conv_rhs => rw [hsd]
                  rw [ih bd sd.visited sd.inStack sd.result]
                  rw [shiftRes_comp]
          · rw [topoDfsStep_skipType g _ _ c conn hg ht,
              topoDfsStep_skipType g _ _ c conn hg ht]
            exact ih false vis stk r
  intro fuel
  induction fuel with
  | zero =>
    have hP : ∀ (v : Nat) (vis stk r : List Nat), topoDfs g 0 v ⟨vis, stk, r⟩
        = shiftRes r (topoDfs g 0 v ⟨vis, stk, []⟩) := by
      intro v vis stk r
      simp [topoDfs, shiftRes]
    exact ⟨hP, hloop 0 hP⟩
  | succ fuel ih =>
    have hP : ∀ (v : Nat) (vis stk r : List Nat), topoDfs g (fuel + 1) v ⟨vis, stk, r⟩
        = shiftRes r (topoDfs g (fuel + 1) v ⟨vis, stk, []⟩) := by
      intro v vis stk r
      rw [topoDfs_succ, topoDfs_succ]
      show (match (g.getConnectionsFrom v).foldl (topoDfsStep g (topoDfs g fuel))
          (false, ⟨setInsert vis v, setInsert stk v, r⟩) with
        | (true, s2) => (true, s2)
        | (false, s2) =>
          (false, ⟨s2.visited, s2.inStack.erase v, s2.result ++ [v]⟩)) = _
      rw [hloop fuel ih.1 (g.getConnectionsFrom v) false (setInsert vis v) (setInsert stk v) r]
      cases hb : (g.getConnectionsFrom v).foldl (topoDfsStep g (topoDfs g fuel))
          (false, ⟨setInsert vis v, setInsert stk v, []⟩) with
      | mk b2 s2 =>
        cases b2 with
        | true => rfl
        | false => simp [shiftRes]
    exact ⟨hP, hloop (fuel + 1) hP⟩

/-- The bool computed by the sort loop is exactly the `has_cycles`
loop: the shared visited and in-stack sets evolve identically, the
result lists differing only by a prefix. -/
theorem topoSortGo_fst (g : Graph) : ∀ (ns : List Node) (vis stk r : List Nat),
    (topoSortGo g ns ⟨vis, stk, r⟩).1 = hasCyclesGo g ns vis stk := by
  intro ns
  induction ns with
  | nil => intro vis stk r; rfl
  | cons n rest ih =>
    intro vis stk r
    unfold topoSortGo hasCyclesGo
    cases hv : (vis : List Nat).contains n.id with
    | true =>
      simp only [hv, Bool.not_true, Bool.false_eq_true, if_false]
      exact ih vis stk r
    | false =>
      simp only [hv, Bool.not_false, if_true]
      rw [(topoDfs_shift g g.dfsFuel).1 n.id vis stk r]
      cases hd : topoDfs g g.dfsFuel n.id ⟨vis, stk, []⟩ with
      | mk bd sd =>
        cases bd with
        | true => rfl
        | false =>
          show (topoSortGo g rest ⟨sd.visited, sd.inStack, r ++ sd.result⟩).1
            = hasCyclesGo g rest sd.visited sd.inStack
          exact ih sd.visited sd.inStack (r ++ sd.result)

/-! Set-insert helpers and the DFS invariant machinery. -/

theorem setInsert_mem_iff (l : List Nat) (x y : Nat) :
    y ∈ setInsert l x ↔ y ∈ l ∨ y = x := by
  unfold setInsert
  split
  · next h =>
    constructor
    · exact Or.inl
    · rintro (hy | rfl)
      · exact hy
      · exact List.mem_of_elem_eq_true h
  · simp

theorem setInsert_eq_append {l : List Nat} {x : Nat} (h : x ∉ l) :
    setInsert l x = l ++ [x] := by
  unfold setInsert
  rw [if_neg]
  intro hc
  exact h (List.mem_of_elem_eq_true hc)

theorem dfsInv_init (g : Graph) : DfsInv g ⟨[], [], []⟩ := by
  constructor
  · intro x
    simp
  · intro x hx
    simp at hx
  · exact List.nodup_nil
  · exact List.nodup_nil
  · intro u w hedge hu
    simp at hu

theorem indexOf_append_self {l : List Nat} {a : Nat} (h : a ∉ l) :
    (l ++ [a]).indexOf a = l.length := by
  rw [List.indexOf_append_of_not_mem h]
  simp

/-- In a duplicate-free list the index of a retrieved element is the
retrieval position. -/
theorem indexOf_eq_of_getElem? {l : List Nat} (hnd : l.Nodup) {i a : Nat}
    (h : l[i]? = some a) : l.indexOf a = i := by
  have hm : a ∈ l := List.getElem?_mem h
  have h2 : l[l.indexOf a]? = some a := List.getElem?_indexOf hm
  rcases List.getElem?_eq_some.mp h with ⟨h3, h4⟩
  rcases List.getElem?_eq_some.mp h2 with ⟨h5, h6⟩
  have h7 : (⟨l.indexOf a, h5⟩ : Fin l.length) = ⟨i, h3⟩ :=
    List.nodup_iff_injective_get.mp hnd (by simp [List.get_eq_getElem, h6, h4])
  exact congrArg Fin.val h7

/-- Reversing a duplicate-free list mirrors element indices. -/
theorem indexOf_reverse {l : List Nat} (hnd : l.Nodup) {a : Nat} (h : a ∈ l) :
    l.reverse.indexOf a = l.length - 1 - l.indexOf a := by
  apply indexOf_eq_of_getElem? (List.nodup_reverse.mpr hnd)
  have hlt : l.indexOf a < l.length := List.indexOf_lt_length.mpr h
  have hsub : l.length - 1 - (l.length - 1 - l.indexOf a) = l.indexOf a := by omega
  have hrange : l.length - 1 - l.indexOf a < l.length := by omega
  rw [List.getElem?_reverse hrange, hsub]
  exact List.getElem?_indexOf h

/-- The core DFS correctness: a `false` outcome preserves the
invariant, restores the stack, grows visited and result, records the
entered node, and the loop records the target of every execution
connection it processed. -/
theorem topoDfs_spec (g : Graph) (hwf : WF g) : ∀ fuel : Nat,
    (∀ (v : Nat) (s : DfsState), DfsInv g s → v ∉ s.visited →
      (topoDfs g fuel v s).1 = false →
      TopoDfsPost g s (topoDfs g fuel v s).2 ∧
      v ∈ (topoDfs g fuel v s).2.result ∧ v ∈ (topoDfs g fuel v s).2.visited) ∧
    (∀ (cs : List Nat) (b0 : Bool) (s : DfsState), DfsInv g s →
      (cs.foldl (topoDfsStep g (topoDfs g fuel)) (b0, s)).1 = false →
      TopoDfsPost g s (cs.foldl (topoDfsStep g (topoDfs g fuel)) (b0, s)).2 ∧
      (∀ cid ∈ cs, ∀ conn, g.getConnection cid = some conn →
        conn.type = ConnectionType.Execution →
        conn.to_node ∈ (cs.foldl (topoDfsStep g (topoDfs g fuel)) (b0, s)).2.result)) := by
  have hloop : ∀ fuel : Nat,
      (∀ (v : Nat) (s : DfsState), DfsInv g s → v ∉ s.visited →
        (topoDfs g fuel v s).1 = false →
        TopoDfsPost g s (topoDfs g fuel v s).2 ∧
        v ∈ (topoDfs g fuel v s).2.result ∧ v ∈ (topoDfs g fuel v s).2.visited) →
      (∀ (cs : List Nat) (b0 : Bool) (s : DfsState), DfsInv g s →
        (cs.foldl (topoDfsStep g (topoDfs g fuel)) (b0, s)).1 = false →
        TopoDfsPost g s (cs.foldl (topoDfsStep g (topoDfs g fuel)) (b0, s)).2 ∧
        (∀ cid ∈ cs, ∀ conn, g.getConnection cid = some conn →
          conn.type = ConnectionType.Execution →
          conn.to_node ∈ (cs.foldl (topoDfsStep g (topoDfs g fuel)) (b0, s)).2.result)) := by
    intro fuel hP cs
    induction cs with
    | nil =>
      intro b0 s hinv hfalse
      refine ⟨⟨hinv, rfl, fun x hx => hx, fun x hx => hx⟩, ?_⟩
      intro cid hcid
      simp at hcid
    | cons c rest ih =>
      intro b0 s hinv hfalse
      rw [List.foldl_cons] at hfalse ⊢
      cases b0 with
      | true =>
        rw [topoDfsStep_true, foldl_fix_true] at hfalse
        cases hfalse
      | false =>
        cases hg : g.getConnection c with
        | none =>
          rw [topoDfsStep_none g _ _ c hg] at hfalse ⊢
          obtain ⟨hpost, htg⟩ := ih false s hinv hfalse
          refine ⟨hpost, ?_⟩
          intro cid hcid conn hgc htype
          rcases List.mem_cons.mp hcid with rfl | hmem
          · rw [hg] at hgc
            cases hgc
          · exact htg cid hmem conn hgc htype
        | some conn0 =>
          by_cases ht : conn0.type = ConnectionType.Execution
          · cases hstk : s.inStack.contains conn0.to_node with
            | true =>
              rw [topoDfsStep_stack g _ _ c conn0 hg ht hstk, foldl_fix_true] at hfalse
              cases hfalse
            | false =>
              cases hvis : s.visited.contains conn0.to_node with
              | true =>
                rw [topoDfsStep_visited g _ _ c conn0 hg ht hstk hvis] at hfalse ⊢
                obtain ⟨hpost, htg⟩ := ih false s hinv hfalse
                refine ⟨hpost, ?_⟩
                intro cid hcid conn hgc htype
                rcases List.mem_cons.mp hcid with rfl | hmem
                · rw [hg] at hgc
                  cases hgc
                  have hm2 : conn0.to_node ∈ s.visited := List.mem_of_elem_eq_true hvis
                  have hm1 : conn0.to_node ∉ s.inStack := by
                    intro hx
                    have hc2 : s.inStack.contains conn0.to_node = true :=
                      List.elem_eq_true_of_mem hx
                    rw [hc2] at hstk
                    cases hstk
                  have hres : conn0.to_node ∈ s.result := by
                    rcases (hinv.visIff conn0.to_node).mp hm2 with hx | hx
                    · exact absurd hx hm1
                    · exact hx
                  exact hpost.2.2.2 conn0.to_node hres
                · exact htg cid hmem conn hgc htype
              | false =>
                rw [topoDfsStep_dfs g _ _ c conn0 hg ht hstk hvis] at hfalse ⊢
                cases hd : topoDfs g fuel conn0.to_node s with
                | mk bd sd =>
                  rw [hd] at hfalse
                  cases bd with
                  | true =>
                    rw [foldl_fix_true] at hfalse
                    cases hfalse
                  | false =>
                    have hnv : conn0.to_node ∉ s.visited := by
                      intro hx
                      have hc2 : s.visited.contains conn0.to_node = true :=
                        List.elem_eq_true_of_mem hx
                      rw [hc2] at hvis
                      cases hvis
                    have hPd := hP conn0.to_node s hinv hnv (by rw [hd])
                    rw [hd] at hPd
                    obtain ⟨⟨hinvd, hstkd, hvmd, hrmd⟩, hwres, hwvis⟩ := hPd
                    obtain ⟨⟨hinv2, hstk2, hvm2, hrm2⟩, htg⟩ := ih false sd hinvd hfalse
                    refine ⟨⟨hinv2, hstk2.trans hstkd,
                      fun x hx => hvm2 x (hvmd x hx), fun x hx => hrm2 x (hrmd x hx)⟩, ?_⟩
                    intro cid hcid conn hgc htype
                    rcases List.mem_cons.mp hcid with rfl | hmem
                    · rw [hg] at hgc
                      cases hgc
                      exact hrm2 conn0.to_node hwres
                    · exact htg cid hmem conn hgc htype
          · rw [topoDfsStep_skipType g _ _ c conn0 hg ht] at hfalse ⊢
            obtain ⟨hpost, htg⟩ := ih false s hinv hfalse
            refine ⟨hpost, ?_⟩
            intro cid hcid conn hgc htype
            rcases List.mem_cons.mp hcid with rfl | hmem
            · rw [hg] at hgc
              cases hgc
              exact absurd htype ht
            · exact htg cid hmem conn hgc htype
  intro fuel
  induction fuel with
  | zero =>
    have hP0 : ∀ (v : Nat) (s : DfsState), DfsInv g s → v ∉ s.visited →
        (topoDfs g 0 v s).1 = false →
        TopoDfsPost g s (topoDfs g 0 v s).2 ∧
        v ∈ (topoDfs g 0 v s).2.result ∧ v ∈ (topoDfs g 0 v s).2.visited := by
      intro v s hinv hv hfalse
      exact absurd hfalse (by simp [topoDfs])
    exact ⟨hP0, hloop 0 hP0⟩
  | succ fuel ih =>
    have hPs : ∀ (v : Nat) (s : DfsState), DfsInv g s → v ∉ s.visited →
        (topoDfs g (fuel + 1) v s).1 = false →
        TopoDfsPost g s (topoDfs g (fuel + 1) v s).2 ∧
        v ∈ (topoDfs g (fuel + 1) v s).2.result ∧
        v ∈ (topoDfs g (fuel + 1) v s).2.visited := by
      intro v s hinv hv hfalse
      rw [topoDfs_succ] at hfalse ⊢
      have hvstk : v ∉ s.inStack := fun hx => hv ((hinv.visIff v).mpr (Or.inl hx))
      have hvres : v ∉ s.result := fun hx => hv ((hinv.visIff v).mpr (Or.inr hx))
      have hinv1 : DfsInv g ⟨setInsert s.visited v, setInsert s.inStack v, s.result⟩ := by
        constructor
        · intro x
          show x ∈ setInsert s.visited v ↔ x ∈ setInsert s.inStack v ∨ x ∈ s.result
          rw [setInsert_mem_iff, setInsert_mem_iff]
          have h0 := hinv.visIff x
          tauto
        · intro x hx
          rcases (setInsert_mem_iff _ _ _).mp hx with hx2 | rfl
          · exact hinv.stackRes x hx2
          · exact hvres
        · exact hinv.resNodup
        · rw [setInsert_eq_append hvstk]
          simp [List.nodup_append, hinv.stackNodup, hvstk]
        · exact hinv.resClosed
      cases hfl : (g.getConnectionsFrom v).foldl (topoDfsStep g (topoDfs g fuel))
          (false, ⟨setInsert s.visited v, setInsert s.inStack v, s.result⟩) with
      | mk b2 s2 =>
        rw [hfl] at hfalse
        cases b2 with
        | true => simp at hfalse
        | false =>
          have hQ := hloop fuel ih.1 (g.getConnectionsFrom v) false
            ⟨setInsert s.visited v, setInsert s.inStack v, s.result⟩ hinv1 (by rw [hfl])
          rw [hfl] at hQ
          obtain ⟨⟨hinv2, hstk2, hvm2, hrm2⟩, htg⟩ := hQ
          have hstk2e : s2.inStack = s.inStack ++ [v] := by
            rw [hstk2]
            exact setInsert_eq_append hvstk
          have herase : s2.inStack.erase v = s.inStack := by
            rw [hstk2e, List.erase_append_right _ hvstk]
            simp
          have hvins2 : v ∈ s2.inStack := by
            rw [hstk2e]
            simp
          have hvnotr2 : v ∉ s2.result := hinv2.stackRes v hvins2
          refine ⟨⟨?_, ?_, ?_, ?_⟩, ?_, ?_⟩
          · constructor
            · intro x
              show x ∈ s2.visited ↔ x ∈ s2.inStack.erase v ∨ x ∈ s2.result ++ [v]
              rw [herase]
              have h0 := hinv2.visIff x
              rw [hstk2e] at h0
              simp only [List.mem_append, List.mem_singleton] at h0 ⊢
              tauto
            · intro x hx
              show x ∉ s2.result ++ [v]
              have hx0 : x ∈ s2.inStack.erase v := hx
              rw [herase] at hx0
              have hx2 : x ∈ s2.inStack := by
                rw [hstk2e]
                exact List.mem_append_left _ hx0
              have hxr := hinv2.stackRes x hx2
              have hxv : x ≠ v := fun he => hvstk (he ▸ hx0)
              simp [hxr, hxv]
            · show (s2.result ++ [v]).Nodup
              simp [List.nodup_append, hinv2.resNodup, hvnotr2]
            · show (s2.inStack.erase v).Nodup
              rw [herase]
              exact hinv.stackNodup
            · intro u w hedge hu
              show w ∈ s2.result ++ [v] ∧
                (s2.result ++ [v]).indexOf w < (s2.result ++ [v]).indexOf u
              have hu0 : u ∈ s2.result ++ [v] := hu
              rcases List.mem_append.mp hu0 with hu2 | hu1
              · obtain ⟨hw, hlt⟩ := hinv2.resClosed u w hedge hu2
                refine ⟨List.mem_append_left _ hw, ?_⟩
                rw [List.indexOf_append_of_mem hw, List.indexOf_append_of_mem hu2]
                exact hlt
              · have huv := List.mem_singleton.mp hu1
                subst huv
                obtain ⟨cc, hcc, hcct, hccf, hcctn⟩ := hedge
                have hadj : cc.id ∈ g.getConnectionsFrom u := by
                  have h2 := (hwf.connInAdj cc hcc).1
                  rw [hccf] at h2
                  exact h2
                have hgc : g.getConnection cc.id = some cc := hwf.getConnection_eq cc hcc
                have hwres : w ∈ s2.result := by
                  have h3 := htg cc.id hadj cc hgc hcct
                  rw [hcctn] at h3
                  exact h3
                refine ⟨List.mem_append_left _ hwres, ?_⟩
                rw [List.indexOf_append_of_mem hwres, indexOf_append_self hvnotr2]
                exact List.indexOf_lt_length.mpr hwres
          · exact herase
          · intro x hx
            exact hvm2 x (mem_setInsert_of_mem hx)
          · intro x hx
            exact List.mem_append_left _ (hrm2 x hx)
          · show v ∈ s2.result ++ [v]
            simp
          · show v ∈ s2.visited
            exact hvm2 v (mem_setInsert_self s.visited v)
    exact ⟨hPs, hloop (fuel + 1) hPs⟩

/-- The node loop of `topological_sort`: a `false` outcome yields an
invariant-satisfying final state with an empty stack whose result lists
every node handed to the loop. -/
theorem topoSortGo_spec (g : Graph) (hwf : WF g) : ∀ (ns : List Node) (s : DfsState),
    DfsInv g s → s.inStack = [] → (topoSortGo g ns s).1 = false →
    DfsInv g (topoSortGo g ns s).2 ∧ (topoSortGo g ns s).2.inStack = [] ∧
    (∀ x ∈ s.visited, x ∈ (topoSortGo g ns s).2.visited) ∧
    (∀ x ∈ s.result, x ∈ (topoSortGo g ns s).2.result) ∧
    (∀ n ∈ ns, n.id ∈ (topoSortGo g ns s).2.result) := by
  intro ns
  induction ns with
  | nil =>
    intro s hinv hstk hfalse
    refine ⟨hinv, hstk, fun x hx => hx, fun x hx => hx, ?_⟩
    intro n hn
    simp at hn
  | cons n rest ih =>
    intro s hinv hstk hfalse
    unfold topoSortGo at hfalse ⊢
    cases hv : s.visited.contains n.id with
    | true =>
      simp only [hv, Bool.not_true] at hfalse ⊢
      rw [if_neg (by simp)] at hfalse ⊢
      obtain ⟨hinv2, hstk2, hvm, hrm, hall⟩ := ih s hinv hstk hfalse
      refine ⟨hinv2, hstk2, hvm, hrm, ?_⟩
      intro m hm
      rcases List.mem_cons.mp hm with rfl | hmem
      · have hnvis : m.id ∈ s.visited := List.mem_of_elem_eq_true hv
        have h2 : m.id ∈ (topoSortGo g rest s).2.visited := hvm _ hnvis
        rcases (hinv2.visIff m.id).mp h2 with hx | hx
        · rw [hstk2] at hx
          simp at hx
        · exact hx
      · exact hall m hmem
    | false =>
      simp only [hv, Bool.not_false] at hfalse ⊢
      rw [if_pos trivial] at hfalse ⊢
      cases hd : topoDfs g g.dfsFuel n.id s with
      | mk bd sd =>
        rw [hd] at hfalse
        cases bd with
        | true => simp at hfalse
        | false =>
          have hnv : n.id ∉ s.visited := by
            intro hx
            have hc : s.visited.contains n.id = true := List.elem_eq_true_of_mem hx
            rw [hc] at hv
            cases hv
          have hPd := (topoDfs_spec g hwf g.dfsFuel).1 n.id s hinv hnv (by rw [hd])
          rw [hd] at hPd
          obtain ⟨⟨hinvd, hstkd, hvmd, hrmd⟩, hnres, hnvis⟩ := hPd
          have hstkd0 : sd.inStack = [] := by rw [hstkd, hstk]
          obtain ⟨hinv2, hstk2, hvm2, hrm2, hall⟩ := ih sd hinvd hstkd0 hfalse
          refine ⟨hinv2, hstk2, fun x hx => hvm2 x (hvmd x hx),
            fun x hx => hrm2 x (hrmd x hx), ?_⟩
          intro m hm
          rcases List.mem_cons.mp hm with rfl | hmem
          · exact hrm2 _ hnres
          · exact hall m hmem

/-- C4: for every reachable graph with at least one node, `has_cycles`
is true exactly when `topological_sort` fails with the cycle error
(code 400), and a successful sort lists both endpoints of every
execution connection with the source strictly before the target. -/
theorem C4_cycles_iff_sort_and_order (g : Graph) (h : Reachable g) (hne : g.nodes ≠ []) :
    (g.hasCycles = true ↔ g.topologicalSort =
      .error ⟨"Graph contains cycles - cannot perform topological sort", 400⟩) ∧
    (∀ order, g.topologicalSort = .ok order →
      ∀ c ∈ g.connections, c.type = ConnectionType.Execution →
        c.from_node ∈ order ∧ c.to_node ∈ order ∧
        order.indexOf c.from_node < order.indexOf c.to_node) := by
  have hwf := wf_of_reachable h
  constructor
  · unfold Graph.hasCycles Graph.topologicalSort
    rw [← topoSortGo_fst g g.nodes [] [] []]
    cases hts : topoSortGo g g.nodes ⟨[], [], []⟩ with
    | mk b s =>
      cases b
      · simp
      · simp
  · intro order hok c hc htype
    unfold Graph.topologicalSort at hok
    cases hts : topoSortGo g g.nodes ⟨[], [], []⟩ with
    | mk b s =>
      rw [hts] at hok
      cases b with
      | true => simp at hok
      | false =>
        dsimp only at hok
        have horder : order = s.result.reverse := by
          injection hok with h2
          exact h2.symm
        have hspec := topoSortGo_spec g hwf g.nodes ⟨[], [], []⟩
          (dfsInv_init g) rfl (by rw [hts])
        rw [hts] at hspec
        dsimp only at hspec
        obtain ⟨hinvF, hstkF, hvmF, hrmF, hallF⟩ := hspec
        have hfn : ∃ nd, nd ∈ g.nodes ∧ nd.id = c.from_node := by
          have h2 := (hwf.endpointsExist c hc).1
          rw [hasNode_iff_mem] at h2
          exact (hwf.lookupNodes c.from_node).mp h2
        obtain ⟨nd, hnd, hndid⟩ := hfn
        have hfromres : c.from_node ∈ s.result := by
          rw [← hndid]
          exact hallF nd hnd
        have hedge : ExecEdge g c.from_node c.to_node := ⟨c, hc, htype, rfl, rfl⟩
        obtain ⟨htores, hlt⟩ := hinvF.resClosed c.from_node c.to_node hedge hfromres
        have hndp := hinvF.resNodup
        subst horder
        refine ⟨List.mem_reverse.mpr hfromres, List.mem_reverse.mpr htores, ?_⟩
        rw [indexOf_reverse hndp hfromres, indexOf_reverse hndp htores]
        have h1 := List.indexOf_lt_length.mpr hfromres
        omega

/-- C4 witness: the statement at the concrete acyclic
Start→Print→End graph. -/
theorem C4_cycles_iff_sort_and_order_witness :
    (graphC8.hasCycles = true ↔ graphC8.topologicalSort =
      .error ⟨"Graph contains cycles - cannot perform topological sort", 400⟩) ∧
    (∀ order, graphC8.topologicalSort = .ok order →
      ∀ c ∈ graphC8.connections, c.type = ConnectionType.Execution →
        c.from_node ∈ order ∧ c.to_node ∈ order ∧
        order.indexOf c.from_node < order.indexOf c.to_node) :=
  C4_cycles_iff_sort_and_order graphC8
    (Reachable.connect _ 3 4 2 2 (Reachable.connect _ 1 1 3 3
      (Reachable.addNode _ endNode2 (Reachable.addNode _ printNode3
        (Reachable.addNode _ startNode1 Reachable.empty)))))
    (by decide)

end VisProg
